import Mathlib

/-!
Verification development for the biglake-iceberg-pipeline data-cleaning agent.

The Python modules under `services/data-cleaning-agent` are shallowly embedded:
pure decision logic becomes Lean functions, DuckDB tables become lists of rows,
the session registry becomes an association list, and fallible paths return
`Except`/`Option`.  Machine reals appearing in the source (castability rates)
are modelled as `Rat` with the Python 4-decimal banker rounding made explicit;
float-representation noise is outside the scope of the stated properties.

External collaborators of the repository (DuckDB itself, the Python `json`
module, the LLM classifiers) are modelled as parameters or oracles, exactly at
the call boundary the source uses.  SQL templates referenced by name from
`datagrunt_agent/sql/` are not part of the provided sources; where a property
depends on one, the definition is modelled from the specification text and the
doc comment says so.
-/

/-! ## Common string constants (SQL type tags, categories, keys) -/

def tyVARCHAR : String := "VARCHAR"

def tyDOUBLE : String := "DOUBLE"

def tyBOOLEAN : String := "BOOLEAN"

def tyDATE : String := "DATE"

def tyTIMESTAMP : String := "TIMESTAMP"

def tyBIGINT : String := "BIGINT"

def sevInfo : String := "info"

def sevWarning : String := "warning"

def sevCritical : String := "critical"

def catNullAnalysis : String := "null_analysis"

def catNullLikeStrings : String := "null_like_strings"

def catWhitespace : String := "whitespace"

def catTypeAnalysis : String := "type_analysis"

def catConstantColumns : String := "constant_columns"

def catDuplicates : String := "duplicates"

def catOutliers : String := "outliers"

def colProcessedAt : String := "processed_at"

def colIsDuplicate : String := "is_duplicate"

/-- `_PROTECTED_COLUMNS` from `tools/cleaning.py`. -/
def protectedColumns : List String := [colProcessedAt, colIsDuplicate]

/-! ## C8 — safe SQL execution (`core/duckdb_session.py`)

`_DESTRUCTIVE_PATTERN` is the regex
`^\s*(DELETE\b|DROP\s+TABLE\b|TRUNCATE\b|DROP\s+DATABASE\b)` with IGNORECASE,
used through `re.search`; the `^` anchor (no MULTILINE) restricts matching to
the start of the string.  The embedding works on the character list of the
statement: skip the leading whitespace run, then try each alternative, each
ending in a word boundary. -/

/-- Python `\s` on ASCII input. -/
def isPySpace (c : Char) : Bool :=
  c = ' ' || c = '\t' || c = '\n' || c = '\r' || c = '\x0b' || c = '\x0c'

/-- Python `\w` on ASCII input (word character, for `\b`). -/
def isWordChar (c : Char) : Bool :=
  (c ≥ 'a' && c ≤ 'z') || (c ≥ 'A' && c ≤ 'Z') || (c ≥ '0' && c ≤ '9') || c = '_'

/-- ASCII uppercase fold, for the IGNORECASE flag. -/
def asciiUpper (c : Char) : Char :=
  if c ≥ 'a' && c ≤ 'z' then Char.ofNat (c.toNat - 32) else c

/-- Case-insensitive literal match; returns the rest of the input on success. -/
def matchKw : List Char → List Char → Option (List Char)
  | [], rest => some rest
  | _ :: _, [] => none
  | k :: ks, c :: cs => if asciiUpper c = asciiUpper k then matchKw ks cs else none

/-- A regex `\b` right after a keyword: end of input or a non-word character. -/
def atBoundary : List Char → Bool
  | [] => true
  | c :: _ => !isWordChar c

/-- `\s+` then a keyword then `\b` (for `DROP\s+TABLE` / `DROP\s+DATABASE`). -/
def matchGapKw (kw : List Char) (cs : List Char) : Bool :=
  match cs with
  | [] => false
  | c :: rest =>
    if isPySpace c then
      match matchKw kw (rest.dropWhile isPySpace) with
      | some r => atBoundary r
      | none => false
    else false

/-- `_DESTRUCTIVE_PATTERN.search(sql)` as a Boolean on the statement. -/
def destructiveMatch (sql : String) : Bool :=
  let cs := sql.data.dropWhile isPySpace
  (match matchKw [ 'D', 'E', 'L', 'E', 'T', 'E' ] cs with
   | some r => atBoundary r
   | none => false) ||
  (match matchKw [ 'D', 'R', 'O', 'P' ] cs with
   | some r =>
     matchGapKw [ 'T', 'A', 'B', 'L', 'E' ] r ||
     matchGapKw [ 'D', 'A', 'T', 'A', 'B', 'A', 'S', 'E' ] r
   | none => false) ||
  (match matchKw [ 'T', 'R', 'U', 'N', 'C', 'A', 'T', 'E' ] cs with
   | some r => atBoundary r
   | none => false)

/-- The fixed refusal message of `reject_destructive`. -/
def destructiveMsg : String :=
  "DELETE, DROP TABLE, and TRUNCATE are not allowed. Rows must never be removed. Use UPDATE to fix values or add a flag column to mark problematic rows."

/-- The structured refusal dict from `reject_destructive`. -/
structure Refusal where
  error : String
  rejected_sql : String
  deriving DecidableEq, Repr

/-- `reject_destructive` from `core/duckdb_session.py`. -/
def reject_destructive (sql : String) : Option Refusal :=
  if destructiveMatch sql then some { error := destructiveMsg, rejected_sql := sql }
  else none

/-- `execute_safe`: raise `ValueError(rejection["error"])` on refusal, else hand
the statement to the engine (the engine itself is a parameter). -/
def execute_safe {α : Type} (engine : String → α) (sql : String) : Except String α :=
  match reject_destructive sql with
  | some r => Except.error r.error
  | none => Except.ok (engine sql)

/-! ## C9 — the orchestrator read-back of cleaned rows (`main.py`)

`handle_gcs_event` computes
`cleaned_rows = clean_result.get("after", \x7b\x7d).get("rows", raw_rows)`.
The cleaner result dict (built at the end of `clean_table`) is modelled with
its exact top-level keys, so the lookup behaviour is the same as in Python. -/

/-- A Python value, one level of dict nesting (all the read-back needs). -/
inductive PyVal where
  | num (n : ℤ)
  | str (s : String)
  | dict (entries : List (String × ℤ))
  deriving DecidableEq, Repr

/-- Python `dict.get(key)` on an association list (first match wins). -/
def pyGet {α : Type} : List (String × α) → String → Option α
  | [], _ => none
  | e :: rest, key => if e.fst = key then some e.snd else pyGet rest key

/-- Python `dict.get(key, default)` for integer dicts. -/
def pyGetD (entries : List (String × ℤ)) (key : String) (default : ℤ) : ℤ :=
  match pyGet entries key with
  | some v => v
  | none => default

/-- The top-level entries of the dict returned by `clean_table`
(`tools/cleaning.py`, result construction), with the numeric fields kept
symbolic and the non-numeric ones as opaque strings. -/
def cleanTableResultEntries (before_rows after_rows before_columns after_columns
    columns_added columns_removed : ℤ) : List (String × PyVal) :=
  [ ("status", PyVal.str "success"),
    ("table_name", PyVal.str "t"),
    ("before_rows", PyVal.num before_rows),
    ("after_rows", PyVal.num after_rows),
    ("before_columns", PyVal.num before_columns),
    ("after_columns", PyVal.num after_columns),
    ("columns_added", PyVal.num columns_added),
    ("columns_removed", PyVal.num columns_removed),
    ("operations", PyVal.str "list"),
    ("pii_detection", PyVal.str "list"),
    ("identifier_columns", PyVal.str "list"),
    ("numeric_precision_flags", PyVal.str "list"),
    ("cleaning_report_path", PyVal.str "path") ]

/-- `clean_result.get("after", \x7b\x7d).get("rows", raw_rows)` from
`main.py handle_gcs_event`.  A non-dict value under `"after"` would raise in
Python; the cleaner never emits that key at all, so the branch is dead. -/
def gcsCleanedRows (clean_result : List (String × PyVal)) (raw_rows : ℤ) : ℤ :=
  match pyGet clean_result "after" with
  | some (PyVal.dict inner) => pyGetD inner "rows" raw_rows
  | some _ => raw_rows
  | none => pyGetD [] "rows" raw_rows

/-- The value the cleaner itself declares authoritative (`after_rows`). -/
def resultAfterRows (clean_result : List (String × PyVal)) : Option ℤ :=
  match pyGet clean_result "after_rows" with
  | some (PyVal.num n) => some n
  | _ => none

/-! ## C6 — per-column type-analysis finding (`tools/quality.py`)

`_batch_type_analysis` turns the five per-column counts coming back from the
wide FILTER query into at most one finding.  The counts are the inputs here;
the castability predicates themselves are DuckDB behaviour. -/

/-- A quality finding (`tools/quality.py`), modelled with every field the
cleaning engine reads via `dict.get`, with the same defaults. -/
structure Finding where
  category : String := ""
  severity : String := ""
  column : String := ""
  columns : List String := []
  null_rate : ℚ := 0
  numeric_castable_rate : ℚ := 0
  date_castable_rate : ℚ := 0
  boolean_castable_rate : ℚ := 0
  leading_zero_count : ℕ := 0
  suggested_cast : Option String := none
  approximate_count : ℕ := 0
  deriving DecidableEq, Repr

/-- Python `round(x, 4)` (round half to even), on exact rationals. -/
def pyRound4 (q : ℚ) : ℚ :=
  let y := q * 10000
  let f : ℤ := ⌊y⌋
  let r := y - f
  let n : ℤ :=
    if r < 1 / 2 then f
    else if r > 1 / 2 then f + 1
    else if Even f then f else f + 1
  (n : ℚ) / 10000

/-- The severity / suggested-cast decision chain of `_batch_type_analysis`
(`tools/quality.py`): leading zeros with majority numeric castability give a
warning and block the cast; otherwise the first rate above 0.9 wins, in the
order BOOLEAN, DATE, DOUBLE. -/
def typeSevCast (numeric_rate date_rate boolean_rate : ℚ)
    (leading_zeros : ℕ) : String × Option String :=
  if 0 < leading_zeros ∧ 1 / 2 < numeric_rate then (sevWarning, none)
  else if 9 / 10 < boolean_rate then (sevInfo, some tyBOOLEAN)
  else if 9 / 10 < date_rate then (sevInfo, some tyDATE)
  else if 9 / 10 < numeric_rate then (sevInfo, some tyDOUBLE)
  else (sevInfo, none)

/-- The per-column finding builder of `_batch_type_analysis`
(`tools/quality.py`): emits a finding when any rate exceeds 0.9 or leading
zeros are present, and decides severity and `suggested_cast`. -/
def typeAnalysisFinding (col : String)
    (non_null castable_double castable_date castable_boolean leading_zeros : ℕ) :
    Option Finding :=
  if non_null = 0 then none
  else if ¬ (0 < leading_zeros ∨
      9 / 10 < pyRound4 ((castable_double : ℚ) / (non_null : ℚ)) ∨
      9 / 10 < pyRound4 ((castable_date : ℚ) / (non_null : ℚ)) ∨
      9 / 10 < pyRound4 ((castable_boolean : ℚ) / (non_null : ℚ))) then none
  else
    some { category := catTypeAnalysis
           severity := (typeSevCast
             (pyRound4 ((castable_double : ℚ) / (non_null : ℚ)))
             (pyRound4 ((castable_date : ℚ) / (non_null : ℚ)))
             (pyRound4 ((castable_boolean : ℚ) / (non_null : ℚ)))
             leading_zeros).fst
           column := col
           numeric_castable_rate := pyRound4 ((castable_double : ℚ) / (non_null : ℚ))
           date_castable_rate := pyRound4 ((castable_date : ℚ) / (non_null : ℚ))
           boolean_castable_rate := pyRound4 ((castable_boolean : ℚ) / (non_null : ℚ))
           leading_zero_count := leading_zeros
           suggested_cast := (typeSevCast
             (pyRound4 ((castable_double : ℚ) / (non_null : ℚ)))
             (pyRound4 ((castable_date : ℚ) / (non_null : ℚ)))
             (pyRound4 ((castable_boolean : ℚ) / (non_null : ℚ)))
             leading_zeros).snd }

/-! ## C1 — atomic CSV recovery load (`tools/ingestion.py`)

`_load_csv_robust` measures `rows_lost = source_line_count - total_rows -
empty_rows_removed` after the best parse strategy has been committed, and
fails the load on any shortfall.  `load_file` registers the table in the
session registry only when the result carries no error.  Nothing on the
failure path drops the already-created DuckDB table, so the engine-level
table store is modelled alongside the registry. -/

/-- The diagnostic dict of the atomic-failure branch of `_load_csv_robust`. -/
structure AtomicCsvFailure where
  source_rows : ℤ
  loaded_rows : ℤ
  empty_rows_removed : ℤ
  rows_lost : ℤ
  parse_strategy : String
  deriving DecidableEq, Repr

/-- The success dict of `_load_csv_robust` (fields the pipeline reads). -/
structure CsvLoadSuccess where
  total_rows : ℤ
  source_rows : ℤ
  empty_rows_removed : ℤ
  parse_strategy : String
  deriving DecidableEq, Repr

/-- Tail of `_load_csv_robust`: given the measured quantities, either the
atomic-failure diagnostic or the success record. -/
def loadCsvRobustResult (source_line_count total_rows empty_rows_removed : ℤ)
    (best_config : Option String) : Except AtomicCsvFailure CsvLoadSuccess :=
  let rows_lost := source_line_count - total_rows - empty_rows_removed
  if 0 < rows_lost then
    Except.error
      { source_rows := source_line_count
        loaded_rows := total_rows
        empty_rows_removed := empty_rows_removed
        rows_lost := rows_lost
        parse_strategy := match best_config with
          | some name => name
          | none => "unknown" }
  else
    Except.ok
      { total_rows := total_rows
        source_rows := source_line_count
        empty_rows_removed := empty_rows_removed
        parse_strategy := match best_config with
          | some name => name
          | none => "unknown" }

/-- Session registry entry (`TableMetadata` in `core/duckdb_session.py`). -/
structure TableMetadata where
  table_name : String
  row_count : ℤ
  source_row_count : ℤ
  deriving DecidableEq, Repr

/-- The registration step at the end of `load_file`: a result carrying an
error is returned before `register_table` runs; a success result is recorded
under its table name. -/
def loadFileRegisterStep (registry : List (String × TableMetadata))
    (table_name : String) (res : Except AtomicCsvFailure CsvLoadSuccess) :
    List (String × TableMetadata) :=
  match res with
  | Except.error _ => registry
  | Except.ok ok =>
    (table_name,
      { table_name := table_name
        row_count := ok.total_rows
        source_row_count := ok.source_rows }) :: registry

/-- The whole recovery-load step as a state transformer over engine tables and
registry: `_try_load_csv` creates the table in the DuckDB session (the later
row-count measurements require it to exist), then the atomic check runs, then
`load_file` conditionally registers.  The failure path contains no `DROP`. -/
def loadFileCsvRecovery (store : List String)
    (registry : List (String × TableMetadata)) (table_name : String)
    (source_line_count total_rows empty_rows_removed : ℤ) (strategy : String) :
    List String × List (String × TableMetadata) ×
      Except AtomicCsvFailure CsvLoadSuccess :=
  let store1 := table_name :: store
  let res := loadCsvRobustResult source_line_count total_rows empty_rows_removed
    (some strategy)
  (store1, loadFileRegisterStep registry table_name res, res)

/-! ## C5 / C10 — column name normalization (`core/column_normalizer.py`)

`normalize_column_name` is a pipeline of four `re.sub` passes plus strip and
two final fixups; each regex is embedded as a recursive function on the
character list with Python left-to-right, non-overlapping, greedy semantics.
Case folding is modelled for ASCII (the later `[^a-z0-9]+` pass sends every
non-ASCII character to an underscore in both the source and the model). -/

def isLowerAZ (c : Char) : Bool := c ≥ 'a' && c ≤ 'z'

def isUpperAZ (c : Char) : Bool := c ≥ 'A' && c ≤ 'Z'

def isDigit09 (c : Char) : Bool := c ≥ '0' && c ≤ '9'

/-- Lowercase letter or digit: the class kept by `SPECIAL_CHARS_PATTERN`. -/
def isAlnumLower (c : Char) : Bool := isLowerAZ c || isDigit09 c

/-- ASCII lowercase fold (`str.lower`). -/
def pyLower (c : Char) : Char :=
  if isUpperAZ c then Char.ofNat (c.toNat + 32) else c

/-- `CAMEL_CASE_BOUNDARY.sub(r"\1_\2", s)` for pattern `(.)([A-Z][a-z]+)`:
any character followed by an uppercase letter and a greedy nonempty lowercase
run gains an underscore; scanning resumes after the match. -/
def camelBoundarySub : List Char → List Char
  | [] => []
  | [c] => [c]
  | c :: d :: rest =>
    if isUpperAZ d && (match rest with | r :: _ => isLowerAZ r | [] => false) then
      c :: '_' :: d :: (rest.takeWhile isLowerAZ ++
        camelBoundarySub (rest.dropWhile isLowerAZ))
    else
      c :: camelBoundarySub (d :: rest)
termination_by l => l.length
decreasing_by
  · simp only [List.length_cons]
    exact Nat.lt_succ_of_le (Nat.le_succ_of_le (List.dropWhile_sublist _).length_le)
  · simp [List.length_cons]

/-- `CAMEL_CASE_LOWER_UPPER.sub(r"\1_\2", s)` for pattern `([a-z0-9])([A-Z])`. -/
def camelLowerUpperSub : List Char → List Char
  | [] => []
  | [c] => [c]
  | c :: d :: rest =>
    if (isLowerAZ c || isDigit09 c) && isUpperAZ d then
      c :: '_' :: d :: camelLowerUpperSub rest
    else
      c :: camelLowerUpperSub (d :: rest)

/-- `SPECIAL_CHARS_PATTERN.sub("_", s)` for pattern `[^a-z0-9]+`: each maximal
run of characters outside `[a-z0-9]` becomes a single underscore. -/
def specialCharsSub : List Char → List Char
  | [] => []
  | c :: tl =>
    if isAlnumLower c then c :: specialCharsSub tl
    else '_' :: specialCharsSub (tl.dropWhile (fun d => !isAlnumLower d))
termination_by l => l.length
decreasing_by
  · simp [List.length_cons]
  · simp only [List.length_cons]
    exact Nat.lt_succ_of_le (List.dropWhile_sublist _).length_le

/-- `str.strip("_")`: drop every leading and trailing underscore. -/
def stripUnderscores (cs : List Char) : List Char :=
  ((cs.dropWhile (· = '_')).reverse.dropWhile (· = '_')).reverse

/-- `MULTI_UNDERSCORE_PATTERN.sub("_", s)` for pattern `_+`. -/
def collapseUnderscores : List Char → List Char
  | [] => []
  | c :: tl =>
    if c = '_' then '_' :: collapseUnderscores (tl.dropWhile (· = '_'))
    else c :: collapseUnderscores tl
termination_by l => l.length
decreasing_by
  · simp only [List.length_cons]
    exact Nat.lt_succ_of_le (List.dropWhile_sublist _).length_le
  · simp [List.length_cons]

/-- `normalize_column_name` from `core/column_normalizer.py`. -/
def normalize_column_name (s : String) : String :=
  let cs := camelLowerUpperSub (camelBoundarySub s.data)
  let cs := cs.map pyLower
  let cs := specialCharsSub cs
  let cs := stripUnderscores cs
  let cs := collapseUnderscores cs
  match cs with
  | [] => "unnamed"
  | c :: rest =>
    if isDigit09 c then String.mk ('_' :: c :: rest) else String.mk (c :: rest)

/-- Python dict update `seen[name] += 1` on the association list. -/
def bumpSeen : List (String × ℕ) → String → List (String × ℕ)
  | [], _ => []
  | e :: rest, name =>
    (if e.fst = name then (e.fst, e.snd + 1) else e) :: bumpSeen rest name

/-- Loop body of `make_unique`: `seen` is the running occurrence dict. -/
def makeUniqueGo (seen : List (String × ℕ)) : List String → List String
  | [] => []
  | n :: rest =>
    match pyGet seen n with
    | some k => (n ++ "_" ++ toString (k + 1)) :: makeUniqueGo (bumpSeen seen n) rest
    | none => n :: makeUniqueGo ((n, 0) :: seen) rest

/-- `make_unique` from `core/column_normalizer.py`. -/
def make_unique (names : List String) : List String := makeUniqueGo [] names

/-- `normalize_column_names` from `core/column_normalizer.py`. -/
def normalize_column_names (columns : List String) : List String :=
  make_unique (columns.map normalize_column_name)

/-- Positional restatement of the duplicate-suffix rule, relative to a list of
already-processed names `p` (the spec reading: the k-th later occurrence of a
name gets suffix `_k`, in order of occurrence). -/
def dupSuffixFrom (p : List String) (ns : List String) (i : ℕ) : String :=
  if p.count (ns.getD i "") + (ns.take i).count (ns.getD i "") = 0 then
    ns.getD i ""
  else
    ns.getD i "" ++ "_" ++
      toString (p.count (ns.getD i "") + (ns.take i).count (ns.getD i ""))

/-- The spec-side statement for a whole vector (`p = []`). -/
def dupSuffixAt (ns : List String) (i : ℕ) : String := dupSuffixFrom [] ns i

/-! ## Table model for the cleaning engine (`tools/cleaning.py`)

A DuckDB table is a typed header plus a list of rows; every cleaning SQL
statement in the protocol is an `UPDATE ... SET col = f(col)` (a per-row map
at one column index), an `ALTER TABLE ... ALTER COLUMN ... TYPE` (retype plus
per-row map), an `ALTER TABLE ... DROP COLUMN`, or an `ADD COLUMN` plus an
`UPDATE` (the soft-dedup flag).  DuckDB scalar semantics that the repository
merely invokes (TRY_CAST and date formatting) enter as oracles. -/

/-- A DuckDB cell value. -/
inductive Val where
  | null
  | str (s : String)
  | int (n : ℤ)
  | real (q : ℚ)
  | boolv (b : Bool)
  | date (d : ℤ)
  | ts (t : ℤ)
  deriving DecidableEq, Repr

/-- One column of a table schema: name and declared type. -/
structure Column where
  name : String
  ty : String
  deriving DecidableEq, Repr

/-- A loaded table: schema plus rows (each row parallel to the header). -/
structure Table where
  header : List Column
  rows : List (List Val)
  deriving DecidableEq, Repr

/-- Index of the first column with the given name (`None` if absent). -/
def colIdx (header : List Column) (name : String) : Option ℕ :=
  header.findIdx? (fun c => c.name = name)

/-- Declared type of a column, by name. -/
def colTy (t : Table) (name : String) : Option String :=
  (t.header.find? (fun c => c.name = name)).map (fun c => c.ty)

/-- The column names of a table, in schema order. -/
def columnNames (t : Table) : List String :=
  t.header.map (fun c => c.name)

/-- Apply `f` to the i-th entry of a row (identity when out of range). -/
def modifyAt (f : Val → Val) : ℕ → List Val → List Val
  | _, [] => []
  | 0, v :: vs => f v :: vs
  | n + 1, v :: vs => v :: modifyAt f n vs

/-- `UPDATE t SET col = f(col)`: map `f` over one column of every row. -/
def updateColumn (t : Table) (name : String) (f : Val → Val) : Table :=
  match colIdx t.header name with
  | some i => { t with rows := t.rows.map (modifyAt f i) }
  | none => t

/-- `ALTER TABLE t ALTER col TYPE newTy USING f(col)`: retype the column in
the schema and map the cast over every row. -/
def alterColumnType (t : Table) (name : String) (newTy : String)
    (f : Val → Val) : Table :=
  match colIdx t.header name with
  | some i =>
    { header := t.header.map (fun c => if c.name = name then { c with ty := newTy } else c)
      rows := t.rows.map (modifyAt f i) }
  | none => t

/-- `ALTER TABLE t DROP COLUMN name` (identity when the column is absent,
matching the try/except around the drop statements in the source). -/
def dropColumn (t : Table) (name : String) : Table :=
  match colIdx t.header name with
  | some i => { header := t.header.eraseIdx i, rows := t.rows.map (fun r => r.eraseIdx i) }
  | none => t

/-- A cell viewed through `VARCHAR` equality with trailing-space trim:
DuckDB `TRIM` with the default character set (spaces). -/
def trimSpacesList (cs : List Char) : List Char :=
  ((cs.dropWhile (· = ' ')).reverse.dropWhile (· = ' ')).reverse

/-- DuckDB `TRIM(s)` (default: strip spaces from both ends). -/
def sqlTrim (s : String) : String := String.mk (trimSpacesList s.data)

/-- DuckDB `LOWER(s)` on ASCII input. -/
def sqlLower (s : String) : String := String.mk (s.data.map pyLower)

/-- The null-like sentinel values, lowercase (`_NULL_LIKE_SENTINELS`,
identical lists in `tools/quality.py` and `tools/cleaning.py`). -/
def nullLikeSentinels : List String :=
  ["null", "none", "n/a", "na", "-", "", "#n/a", "nan", "missing"]

/-- Replace every occurrence of a nonempty pattern, scanning left to right
(fuel-based recursion; the input length as fuel never runs out). -/
def replaceListGo (pat rep : List Char) : ℕ → List Char → List Char
  | 0, l => l
  | _, [] => []
  | n + 1, c :: tl =>
    if pat.isPrefixOf (c :: tl) ∧ pat ≠ [] then
      rep ++ replaceListGo pat rep n ((c :: tl).drop pat.length)
    else
      c :: replaceListGo pat rep n tl

/-- `REPLACE(s, pat, rep)` on strings. -/
def sqlReplace (s pat rep : String) : String :=
  String.mk (replaceListGo pat.data rep.data s.data.length s.data)

/-- `_MOJIBAKE_MAP` from `tools/cleaning.py` (mojibake sequence, intended
character). -/
def mojibakeMap : List (String × String) :=
  [ ("Ã©", "é"), ("Ã¡", "á"),
    ("Ã­", "í"), ("Ã³", "ó"),
    ("Ãº", "ú"), ("Ã±", "ñ"),
    ("Ã¼", "ü"), ("Ã¶", "ö"),
    ("Ã¤", "ä"), ("Ã«", "ë"),
    ("Ã¯", "ï"), ("Ã§", "ç"),
    ("Â°", "°"), ("Â£", "£"),
    ("Â©", "©") ]

/-- Modelled from the spec: the `cleaning/replace_unknown_chars` SQL template
is not among the provided sources; spec 4.J step 1 replaces the Unicode
replacement character, and the mojibake updates in `_clean_unknown_chars` are
plain `REPLACE` calls visible in the source.  U+FFFD has no recoverable
intended codepoint and is modelled as removed. -/
def fixUnknownChars (s : String) : String :=
  mojibakeMap.foldl (fun acc p => sqlReplace acc p.fst p.snd)
    (sqlReplace s "�" "")

/-- Cell-level form of a VARCHAR string function (NULL and non-text cells
pass through, as the SQL UPDATE targets VARCHAR columns). -/
def onStr (f : String → String) : Val → Val
  | Val.str s => Val.str (f s)
  | v => v

/-- Engine behaviour the cleaning SQL invokes but the repository does not
define: safe casts and date formatting.  Kept abstract so no DuckDB scalar
semantics are invented. -/
structure EngineOracles where
  tryCastDate : String → Option ℤ
  formatDate : ℤ → String
  tryCastTo : String → String → Option Val

/-- Modelled from the spec: `cleaning/cast_column_type` SQL template (absent
from the sources); spec 4.J step 6 uses safe-cast so unparseable values
become NULL. -/
def safeCastCell (o : EngineOracles) (newTy : String) : Val → Val
  | Val.str s =>
    match o.tryCastTo newTy s with
    | some w => w
    | none => Val.null
  | Val.null => Val.null
  | v => v

/-- Modelled from the spec: `cleaning/standardize_date` SQL template (absent
from the sources); spec 4.J step 5 casts to DATE and formats back to
`YYYY-MM-DD` text, so the column stays VARCHAR. -/
def standardizeDateCell (o : EngineOracles) : Val → Val
  | Val.str s =>
    match o.tryCastDate s with
    | some d => Val.str (o.formatDate d)
    | none => Val.null
  | v => v

/-- Step 1, `_clean_unknown_chars`: runs over every VARCHAR column visible at
entry (only `processed_at` was excluded; the source has no protected-column
check in this step).  The per-pattern WHERE/LIKE guards in the source only
skip no-op updates, so the table effect is the unconditional replacement. -/
def cleanUnknownChars (t : Table) (varchar_cols : List String) : Table :=
  varchar_cols.foldl (fun acc col => updateColumn acc col (onStr fixUnknownChars)) t

/-- Step 2, `_clean_whitespace`: VARCHAR columns plus whitespace-flagged
columns, protected columns skipped inside the loop.  The Python `set` union
order is irrelevant because per-column updates on distinct names commute. -/
def cleanWhitespace (t : Table) (varchar_cols : List String)
    (findings : List Finding) : Table :=
  let flagged := (findings.filter (fun f => f.category = catWhitespace)).map
    (fun f => f.column)
  let targets := varchar_cols ++ flagged.filter (fun c => c ∉ varchar_cols)
  targets.foldl
    (fun acc col =>
      if col ∈ protectedColumns then acc
      else updateColumn acc col (onStr sqlTrim)) t

/-- Step 3, `_clean_empty_strings`: empty/whitespace-only strings to NULL. -/
def cleanEmptyStrings (t : Table) (varchar_cols : List String) : Table :=
  varchar_cols.foldl
    (fun acc col =>
      if col ∈ protectedColumns then acc
      else
        updateColumn acc col (fun v =>
          match v with
          | Val.str s => if sqlTrim s = "" then Val.null else Val.str s
          | w => w)) t

/-- Step 4, `_clean_null_like_strings`: sentinel strings to NULL, driven by
the null-like findings. -/
def cleanNullLikeStrings (t : Table) (findings : List Finding) : Table :=
  (findings.filter (fun f => f.category = catNullLikeStrings)).foldl
    (fun acc f =>
      if f.column ∈ protectedColumns then acc
      else
        updateColumn acc f.column (fun v =>
          match v with
          | Val.str s =>
            if sqlLower (sqlTrim s) ∈ nullLikeSentinels then Val.null
            else Val.str s
          | w => w)) t

/-- Step 5, `_standardize_dates`: columns whose type-analysis finding has
`date_castable_rate > 0.9`, protected columns skipped. -/
def standardizeDates (o : EngineOracles) (t : Table)
    (findings : List Finding) : Table :=
  ((findings.filter (fun f =>
      f.category = catTypeAnalysis ∧ mkRat 9 10 < f.date_castable_rate)).map
    (fun f => f.column)).foldl
    (fun acc col =>
      if col ∈ protectedColumns then acc
      else updateColumn acc col (standardizeDateCell o)) t

/-- One identifier-column record (`identifier_columns` entries). -/
structure IdentifierColumn where
  column : String
  pattern : String
  preserved_as : String
  deriving DecidableEq, Repr

/-- Python truthiness of the `suggested_cast` field. -/
def castTruthy : Option String → Bool
  | some s => s ≠ ""
  | none => false

/-- Step 6, `_clean_type_coercion`: walk the type-analysis findings that have
a (truthy) suggested cast or a positive leading-zero count; skip protected
columns; record leading-zero columns as identifiers and never cast them; skip
DATE (handled by step 5); otherwise safe-cast the column to the suggested
type. -/
def typeCoercionStep (o : EngineOracles)
    (acc : Table × List IdentifierColumn) (f : Finding) :
    Table × List IdentifierColumn :=
  if f.column ∈ protectedColumns then acc
  else if 0 < f.leading_zero_count then
    (acc.fst, acc.snd ++
      [{ column := f.column, pattern := "leading_zeros",
         preserved_as := tyVARCHAR }])
  else
    match f.suggested_cast with
    | none => acc
    | some ty =>
      if ty = "" then acc
      else if ty = tyDATE then acc
      else (alterColumnType acc.fst f.column ty (safeCastCell o ty), acc.snd)

def cleanTypeCoercion (o : EngineOracles) (t : Table)
    (findings : List Finding) : Table × List IdentifierColumn :=
  (findings.filter (fun f =>
    f.category = catTypeAnalysis ∧
      (castTruthy f.suggested_cast ∨ 0 < f.leading_zero_count))).foldl
    (typeCoercionStep o) (t, [])

/-- The values of one column (by name), for cardinality and case checks. -/
def colValues (t : Table) (name : String) : List Val :=
  match colIdx t.header name with
  | some i => t.rows.map (fun r => r.getD i Val.null)
  | none => []

/-- `COUNT(DISTINCT col) WHERE col IS NOT NULL`. -/
def distinctNonNullCount (t : Table) (name : String) : ℕ :=
  (((colValues t name).filter (fun v => v ≠ Val.null)).dedup).length

/-- `COUNT(*) WHERE col IS NOT NULL AND col != LOWER(col)`. -/
def mixedCaseCount (t : Table) (name : String) : ℕ :=
  ((colValues t name).filter (fun v =>
    match v with
    | Val.str s => s ≠ sqlLower s
    | _ => false)).length

/-- Step 7, `_normalize_case`: lowercase VARCHAR categoricals with fewer than
50 distinct non-null values that contain any non-lowercase value. -/
def normalizeCase (t : Table) (varchar_cols : List String) : Table :=
  varchar_cols.foldl
    (fun acc col =>
      if col ∈ protectedColumns then acc
      else if 50 ≤ distinctNonNullCount acc col then acc
      else if 0 < mixedCaseCount acc col then
        updateColumn acc col (onStr sqlLower)
      else acc) t

/-- Projection of a row to the listed column indexes. -/
def projectCols (idxs : List ℕ) (row : List Val) : List Val :=
  idxs.map (fun i => row.getD i Val.null)

/-- All-but-first-occurrence flags over the projected rows. -/
def dupFlagsGo (seen : List (List Val)) : List (List Val) → List Bool
  | [] => []
  | p :: rest => (decide (p ∈ seen)) :: dupFlagsGo (p :: seen) rest

/-- Modelled from the spec: the `cleaning/flag_duplicates` SQL template is
absent from the sources; spec 4.J step 8 adds a boolean `is_duplicate` column
and marks all-but-first occurrence over the hash of the non-protected
columns (hash equality is modelled as tuple equality). -/
def flagDuplicatesTable (t : Table) (idxs : List ℕ) : Table :=
  let projs := t.rows.map (projectCols idxs)
  { header := t.header ++ [{ name := colIsDuplicate, ty := tyBOOLEAN }]
    rows := (t.rows.zip (dupFlagsGo [] projs)).map
      (fun p => p.fst ++ [Val.boolv p.snd]) }

/-- Step 8, `_flag_duplicates`: runs only when a duplicates finding with a
positive count exists; the `ADD COLUMN` fails at engine level when the table
already has an `is_duplicate` column, which surfaces as an exception out of
`clean_table` (the source does not catch it). -/
def dedupCheckIdxs (t : Table) : List ℕ :=
  (List.range t.header.length).filter
    (fun i => ((t.header.getD i { name := "", ty := "" }).name ∉ protectedColumns))

def flagDuplicatesStep (t : Table) (findings : List Finding) :
    Except String Table :=
  if (findings.filter (fun f =>
      f.category = catDuplicates ∧ 0 < f.approximate_count)).isEmpty then
    Except.ok t
  else if (dedupCheckIdxs t).isEmpty then Except.ok t
  else if colIsDuplicate ∈ columnNames t then
    Except.error "Binder Error: column with name is_duplicate already exists"
  else Except.ok (flagDuplicatesTable t (dedupCheckIdxs t))

/-- Step 9, `_clean_high_null_columns`: drop columns whose null-analysis
finding has `null_rate > 0.9`; protected columns skipped. -/
def cleanHighNullColumns (t : Table) (findings : List Finding) : Table :=
  (findings.filter (fun f =>
      f.category = catNullAnalysis ∧ mkRat 9 10 < f.null_rate)).foldl
    (fun acc f =>
      if f.column ∈ protectedColumns then acc else dropColumn acc f.column) t

/-- Step 10, `_clean_constant_columns`: drop every column listed in a
constant-columns finding; protected columns skipped. -/
def cleanConstantColumns (t : Table) (findings : List Finding) : Table :=
  (findings.filter (fun f => f.category = catConstantColumns)).foldl
    (fun acc f =>
      f.columns.foldl
        (fun acc2 col =>
          if col ∈ protectedColumns then acc2 else dropColumn acc2 col) acc) t

/-- The outcome of `clean_table` (the fields the stated properties read). -/
structure CleanOutcome where
  table : Table
  before_rows : ℕ
  after_rows : ℕ
  identifier_columns : List IdentifierColumn
  deriving DecidableEq, Repr

/-- Steps 1-7 of `clean_table` (`tools/cleaning.py`): the in-place value
cleanups and the type coercion, which also produces the identifier-column
records.  `varchar_cols` is computed once at entry, excluding only
`processed_at`, exactly as in the source. -/
def cleanPhase1 (o : EngineOracles) (t : Table) (findings : List Finding) :
    Table × List IdentifierColumn :=
  let all_columns := (columnNames t).filter (fun c => c ≠ colProcessedAt)
  let varchar_cols := all_columns.filter (fun c => colTy t c = some tyVARCHAR)
  let t1 := cleanUnknownChars t varchar_cols
  let t2 := cleanWhitespace t1 varchar_cols findings
  let t3 := cleanEmptyStrings t2 varchar_cols
  let t4 := cleanNullLikeStrings t3 findings
  let t5 := standardizeDates o t4 findings
  let step6 := cleanTypeCoercion o t5 findings
  let varchar_post := (columnNames step6.fst).filter
    (fun c => colTy step6.fst c = some tyVARCHAR ∧ c ∉ protectedColumns)
  (normalizeCase step6.fst varchar_post, step6.snd)

/-- Steps 9-10 of `clean_table`: the column removals. -/
def cleanPhase2 (t : Table) (findings : List Finding) : Table :=
  cleanConstantColumns (cleanHighNullColumns t findings) findings

/-- `clean_table` from `tools/cleaning.py`: the strict ordered protocol.
Steps 11 (PII) and 12 (precision flags) only read the table and are omitted
from the state; an engine failure in step 8 propagates (`Except.error`). -/
def clean_table (o : EngineOracles) (t : Table) (findings : List Finding) :
    Except String CleanOutcome :=
  match flagDuplicatesStep (cleanPhase1 o t findings).fst findings with
  | Except.error e => Except.error e
  | Except.ok t8 =>
    Except.ok
      { table := cleanPhase2 t8 findings
        before_rows := t.rows.length
        after_rows := (cleanPhase2 t8 findings).rows.length
        identifier_columns := (cleanPhase1 o t findings).snd }

/-! ## Quality-scan column selection and the null-like pass (`tools/quality.py`)

`run_quality_checks` excludes exactly one column name from `check_columns`:
the pipeline timestamp.  The combined null-like/whitespace query then counts
sentinel matches per VARCHAR column of that list and emits one finding per
column with a positive count. -/

/-- `check_columns = [c for c in columns if c != "processed_at"]`. -/
def qualityCheckColumns (columns : List String) : List String :=
  columns.filter (fun c => c ≠ colProcessedAt)

/-- The VARCHAR members of `check_columns` for a table. -/
def scannerVarcharCols (t : Table) : List String :=
  (qualityCheckColumns (columnNames t)).filter
    (fun c => colTy t c = some tyVARCHAR)

/-- `COUNT(*) FILTER (WHERE LOWER(TRIM(col::VARCHAR)) IN (sentinels))`. -/
def nullLikeCount (t : Table) (col : String) : ℕ :=
  ((colValues t col).filter (fun v =>
    match v with
    | Val.str s => sqlLower (sqlTrim s) ∈ nullLikeSentinels
    | _ => false)).length

/-- `COUNT(*) FILTER (WHERE col IS NOT NULL AND col != TRIM(col))`. -/
def whitespaceCount (t : Table) (col : String) : ℕ :=
  ((colValues t col).filter (fun v =>
    match v with
    | Val.str s => s ≠ sqlTrim s
    | _ => false)).length

/-- `_batch_null_like_and_whitespace`: per column, a null-like finding when
the sentinel count is positive, then a whitespace finding when the
whitespace count is positive (the per-value breakdown is omitted). -/
def batchNullLikeAndWhitespace (t : Table) (varchar_cols : List String) :
    List Finding :=
  varchar_cols.flatMap (fun col =>
    (if 0 < nullLikeCount t col then
      [{ category := catNullLikeStrings, severity := sevWarning, column := col }]
     else []) ++
    (if 0 < whitespaceCount t col then
      [{ category := catWhitespace, severity := sevWarning, column := col }]
     else []))

/-! ## C7 — atomic JSONL repair (`tools/ingestion.py`)

`json.loads` belongs to the Python standard library, not to the repository;
it enters as a parameter returning either unit or a decode error carrying
line/column/message.  The repair heuristics `_repair_json_string` are
embedded from the source regexes. -/

/-- A `json.JSONDecodeError` (the fields the source reads). -/
structure JsonErr where
  lineno : ℕ
  colno : ℕ
  msg : String
  deriving DecidableEq, Repr

/-- Python `str.strip()` (ASCII whitespace model). -/
def pyStrip (s : String) : String :=
  String.mk (((s.data.dropWhile isPySpace).reverse.dropWhile isPySpace).reverse)

/-- Apostrophe and quote characters, by code point (39 and 34). -/
def quoteChar : Char := Char.ofNat 39

def dquoteChar : Char := Char.ofNat 34

def lbraceChar : Char := Char.ofNat 123

def rbraceChar : Char := Char.ofNat 125

/-- Control characters removed by `_repair_json_string`
(`[\x00-\x08\x0b\x0c\x0e-\x1f]`). -/
def isStrippedCtl (c : Char) : Bool :=
  (c.toNat ≤ 8) || c.toNat = 11 || c.toNat = 12 ||
    (14 ≤ c.toNat && c.toNat ≤ 31)

/-- `re.sub(r",\s*([}\]])", r"\1", s)`: drop a comma standing before a
closing bracket (with optional whitespace).  Fuel-based recursion with the
input length as fuel; the fuel never runs out on the entry call. -/
def fixTrailingCommasGo : ℕ → List Char → List Char
  | 0, l => l
  | _, [] => []
  | n + 1, c :: tl =>
    if c = ',' then
      match tl.dropWhile isPySpace with
      | b :: rest2 =>
        if b = rbraceChar ∨ b = ']' then b :: fixTrailingCommasGo n rest2
        else c :: fixTrailingCommasGo n tl
      | [] => c :: fixTrailingCommasGo n tl
    else c :: fixTrailingCommasGo n tl

def fixTrailingCommas (l : List Char) : List Char :=
  fixTrailingCommasGo l.length l

/-- `re.sub(r"(?<=[:,\[\{])\s*'([^']*)'", r'"\1"', s)`: after a separator
character, a single-quoted token becomes double-quoted (the matched
whitespace is dropped, the lookbehind character kept; scanning resumes after
the closing quote).  `p` is the previous character of the scanned string. -/
def fixSingleQuotedAGo : ℕ → Char → List Char → List Char
  | 0, _, l => l
  | _, _, [] => []
  | n + 1, p, c :: tl =>
    if p = ':' ∨ p = ',' ∨ p = '[' ∨ p = lbraceChar then
      match (c :: tl).dropWhile isPySpace with
      | q :: r2 =>
        if q = quoteChar then
          match r2.dropWhile (fun d => d ≠ quoteChar) with
          | _ :: r4 =>
            dquoteChar :: r2.takeWhile (fun d => d ≠ quoteChar) ++
              dquoteChar :: fixSingleQuotedAGo n quoteChar r4
          | [] => c :: fixSingleQuotedAGo n c tl
        else c :: fixSingleQuotedAGo n c tl
      | [] => c :: fixSingleQuotedAGo n c tl
    else c :: fixSingleQuotedAGo n c tl

def fixSingleQuotedA (l : List Char) : List Char :=
  fixSingleQuotedAGo l.length 'a' l

/-- `re.sub(r"(\{)\s*'([^']*)'", r'\1"\2"', s)`: an opening brace directly
followed (modulo whitespace) by a single-quoted token; the brace is kept, the
token becomes double-quoted, the whitespace is dropped. -/
def fixSingleQuotedBGo : ℕ → List Char → List Char
  | 0, l => l
  | _, [] => []
  | n + 1, c :: tl =>
    if c = lbraceChar then
      match tl.dropWhile isPySpace with
      | q :: r2 =>
        if q = quoteChar then
          match r2.dropWhile (fun d => d ≠ quoteChar) with
          | _ :: r4 =>
            c :: dquoteChar :: r2.takeWhile (fun d => d ≠ quoteChar) ++
              dquoteChar :: fixSingleQuotedBGo n r4
          | [] => c :: fixSingleQuotedBGo n tl
        else c :: fixSingleQuotedBGo n tl
      | [] => c :: fixSingleQuotedBGo n tl
    else c :: fixSingleQuotedBGo n tl

def fixSingleQuotedB (l : List Char) : List Char :=
  fixSingleQuotedBGo l.length l

/-- `_repair_json_string` from `tools/ingestion.py`: strip the BOM, remove
C0 controls (except tab/newline/return), fix trailing commas, and convert
single-quoted JSON tokens to double-quoted ones (the latter only when an
apostrophe is present, as in the source guard). -/
def repairJsonString (s : String) : String :=
  let cs := s.data.dropWhile (fun c => c = Char.ofNat 65279)
  let cs := cs.filter (fun c => !isStrippedCtl c)
  let cs := fixTrailingCommas cs
  let cs := if quoteChar ∈ cs then fixSingleQuotedB (fixSingleQuotedA cs) else cs
  String.mk cs

/-- One unrecoverable line reported by `_repair_json` (JSONL branch). -/
structure UnrecoverableLine where
  line : ℕ
  column : ℕ
  message : String
  content_preview : String
  deriving DecidableEq, Repr

/-- The JSONL loop of `_repair_json`: enumerate lines from 1, skip blanks,
keep lines that parse, repair-and-keep ones that parse after repair, and
collect the rest.  Returns (repaired lines, repaired count, unrecoverable). -/
def repairJsonlGo (jparse : String → Except JsonErr Unit) :
    ℕ → List String → List String × ℕ × List UnrecoverableLine
  | _, [] => ([], 0, [])
  | i, l :: rest =>
    let stripped := pyStrip l
    if stripped = "" then repairJsonlGo jparse (i + 1) rest
    else
      let tail3 := repairJsonlGo jparse (i + 1) rest
      match jparse stripped with
      | Except.ok _ => (stripped :: tail3.fst, tail3.snd.fst, tail3.snd.snd)
      | Except.error _ =>
        let repaired := repairJsonString stripped
        match jparse repaired with
        | Except.ok _ => (repaired :: tail3.fst, tail3.snd.fst + 1, tail3.snd.snd)
        | Except.error e =>
          (tail3.fst, tail3.snd.fst,
            { line := i, column := e.colno, message := e.msg,
              content_preview := String.mk (stripped.data.take 100) } :: tail3.snd.snd)

/-- `_repair_json` (JSONL branch): all-or-nothing; any unrecoverable line
fails the whole repair with the collected list. -/
def repairJsonl (jparse : String → Except JsonErr Unit) (content : List String) :
    Except (List UnrecoverableLine) (List String × ℕ) :=
  let r := repairJsonlGo jparse 1 content
  if r.snd.snd.isEmpty then Except.ok (r.fst, r.snd.fst)
  else Except.error r.snd.snd

/-- `_validate_json` (JSONL branch): collect up to 20 decode errors. -/
def validateJsonlGo (jparse : String → Except JsonErr Unit) :
    ℕ → List String → List (ℕ × ℕ × String)
  | _, [] => []
  | i, l :: rest =>
    let stripped := pyStrip l
    if stripped = "" then validateJsonlGo jparse (i + 1) rest
    else
      match jparse stripped with
      | Except.ok _ => validateJsonlGo jparse (i + 1) rest
      | Except.error e =>
        let tail2 := validateJsonlGo jparse (i + 1) rest
        if 19 ≤ tail2.length then (i, e.colno, e.msg) :: tail2.take 19
        else (i, e.colno, e.msg) :: tail2

def validateJsonl (jparse : String → Except JsonErr Unit)
    (content : List String) : List (ℕ × ℕ × String) :=
  validateJsonlGo jparse 1 content

/-- How `_load_json_robust` ends for a newline-delimited file. -/
inductive JsonLoadOutcome where
  | fromOriginal
  | fromRepaired (lines : List String) (lines_repaired : ℕ)
  deriving DecidableEq, Repr

/-- `_load_json_robust`, newline-delimited path: validate; on failure repair;
an unrecoverable repair returns the error (the DuckDB load never runs). -/
def loadJsonRobust (jparse : String → Except JsonErr Unit)
    (content : List String) : Except (List UnrecoverableLine) JsonLoadOutcome :=
  if (validateJsonl jparse content).isEmpty then
    Except.ok JsonLoadOutcome.fromOriginal
  else
    match repairJsonl jparse content with
    | Except.error u => Except.error u
    | Except.ok r => Except.ok (JsonLoadOutcome.fromRepaired r.fst r.snd)

/-- A line is recoverable when it parses as-is or after the repair
heuristics (spec wording, for the refinement statement). -/
def lineRecoverable (jparse : String → Except JsonErr Unit) (l : String) : Bool :=
  match jparse (pyStrip l) with
  | Except.ok _ => true
  | Except.error _ =>
    match jparse (repairJsonString (pyStrip l)) with
    | Except.ok _ => true
    | Except.error _ => false

/-! ## Auxiliary definitions used by the statements and their evaluations -/

/-- `Except` success test. -/
def exceptIsOk {ε α : Type} : Except ε α → Bool
  | Except.ok _ => true
  | Except.error _ => false

/-- Spec-side restatement for C7: the 1-based numbers of the non-blank lines
that parse neither originally nor after the repair heuristics. -/
def failedLineNumbersGo (jparse : String → Except JsonErr Unit) :
    ℕ → List String → List ℕ
  | _, [] => []
  | i, l :: rest =>
    (if pyStrip l ≠ "" ∧ lineRecoverable jparse l = false then [i] else []) ++
      failedLineNumbersGo jparse (i + 1) rest

def failedLineNumbers (jparse : String → Except JsonErr Unit)
    (content : List String) : List ℕ :=
  failedLineNumbersGo jparse 1 content

/-- Inert engine oracles for concrete evaluations (every cast fails). -/
def trivialOracles : EngineOracles :=
  { tryCastDate := fun _ => none
    formatDate := fun _ => ""
    tryCastTo := fun _ _ => none }

/-- A deterministic stand-in for `json.loads` in concrete evaluations: only
the literal digit one parses. -/
def toyJsonParse (s : String) : Except JsonErr Unit :=
  if s = "1" then Except.ok ()
  else Except.error { lineno := 1, colno := 1, msg := "Expecting value" }

/-- Concrete inputs referenced by closed statements. -/
def sqlDeleteEx : String := "DELETE FROM t"

def sqlSelectEx : String := "SELECT 1 FROM t"

def exTableName : String := "table_orders"

def exStrategy : String := "double-quote"

def exColA : String := "a"

def exColA1 : String := "a_1"

def exColCode : String := "code"

def exColZip : String := "zip"

def strNA : String := "n/a"

def strBob : String := "bob"

def strOne : String := "1"

def strNotJson : String := "this is not json at all"

/-- One-column, one-row table for the row-preservation evaluation. -/
def exTable1 : Table :=
  { header := [{ name := exColA, ty := tyBIGINT }]
    rows := [[Val.int 5]] }

/-- Table whose `is_duplicate` column is ordinary VARCHAR source data. -/
def exTableC4 : Table :=
  { header := [{ name := exColA, ty := tyVARCHAR },
               { name := colIsDuplicate, ty := tyVARCHAR },
               { name := colProcessedAt, ty := tyTIMESTAMP }]
    rows := [[Val.str strBob, Val.str strNA, Val.ts 0]] }

/-- Table with both protected columns (non-VARCHAR) for the C4 witness. -/
def exTableC4W : Table :=
  { header := [{ name := exColA, ty := tyBIGINT },
               { name := colProcessedAt, ty := tyTIMESTAMP },
               { name := colIsDuplicate, ty := tyBOOLEAN }]
    rows := [[Val.int 1, Val.ts 0, Val.boolv false]] }

/-- The clean outcome of `exTableC4W` with no findings (nothing changes). -/
def outC4W : CleanOutcome :=
  { table := exTableC4W, before_rows := 1, after_rows := 1,
    identifier_columns := [] }

/-- Table for the C3 counterexample: a leading-zero VARCHAR column that a
high-null finding also targets. -/
def exTableC3 : Table :=
  { header := [{ name := exColZip, ty := tyVARCHAR },
               { name := exColA, ty := tyVARCHAR }]
    rows := [[Val.null, Val.str strBob]] }

/-- The type-analysis finding of the C3 counterexample. -/
def exFindingZipLZ : Finding :=
  { category := catTypeAnalysis, severity := sevWarning, column := exColZip,
    leading_zero_count := 3, numeric_castable_rate := 1 }

/-- The high-null finding of the C3 counterexample. -/
def exFindingZipNull : Finding :=
  { category := catNullAnalysis, severity := sevCritical, column := exColZip,
    null_rate := mkRat 95 100 }

/-- The clean outcome of the C3 counterexample run: the zip column is gone
(dropped by high-null removal) although it was recorded as an identifier. -/
def outC3 : CleanOutcome :=
  { table := { header := [{ name := exColA, ty := tyVARCHAR }]
               rows := [[Val.str strBob]] }
    before_rows := 1
    after_rows := 1
    identifier_columns := [{ column := exColZip, pattern := "leading_zeros",
                             preserved_as := tyVARCHAR }] }

/-- The clean outcome of `exTableC3` with only the leading-zero finding:
nothing changes except the identifier record. -/
def outC3W : CleanOutcome :=
  { table := exTableC3
    before_rows := 1
    after_rows := 1
    identifier_columns := [{ column := exColZip, pattern := "leading_zeros",
                             preserved_as := tyVARCHAR }] }

/-- A column keeps text type: every header entry with that name is VARCHAR. -/
def textTyped (T : Table) (c : String) : Prop :=
  ∀ col ∈ T.header, col.name = c → col.ty = tyVARCHAR

/-- The occurrence dict of `make_unique` models a processed prefix `p`:
a name maps to its occurrence count in `p` minus one, and is absent iff the
count is zero. -/
def seenModels (seen : List (String × ℕ)) (p : List String) : Prop :=
  ∀ n, pyGet seen n = if p.count n = 0 then none else some (p.count n - 1)

/-! # Theorems -/

/-! ## C8 — destructive statements are refused, everything else executes -/

/-- C8: a statement whose start matches DELETE, DROP TABLE, TRUNCATE or DROP
DATABASE (case-insensitively, after leading whitespace, at a word boundary)
makes `reject_destructive` return the structured refusal echoing the SQL
verbatim and makes `execute_safe` raise instead of executing; any other
statement is passed to the engine with no refusal. -/
theorem execute_safe_destructive_policy {α : Type} (engine : String → α)
    (sql : String) :
    (destructiveMatch sql = true →
      reject_destructive sql =
        some { error := destructiveMsg, rejected_sql := sql } ∧
      execute_safe engine sql = Except.error destructiveMsg) ∧
    (destructiveMatch sql = false →
      reject_destructive sql = none ∧
      execute_safe engine sql = Except.ok (engine sql)) := by
  constructor <;> intro h <;>
    simp [execute_safe, reject_destructive, h]

/-- C8 witness: `DELETE FROM t` is refused with the SQL echoed; a SELECT
goes through to the engine. -/
theorem execute_safe_destructive_policy_witness :
    reject_destructive sqlDeleteEx =
      some { error := destructiveMsg, rejected_sql := sqlDeleteEx } ∧
    execute_safe String.length sqlSelectEx =
      Except.ok (String.length sqlSelectEx) :=
  ⟨((execute_safe_destructive_policy String.length sqlDeleteEx).1 (by decide)).1,
   ((execute_safe_destructive_policy String.length sqlSelectEx).2 (by decide)).2⟩

/-! ## C9 — the cleaned-rows read-back reads a key the cleaner never emits -/

/-- C9: evaluated at the failing input: a cleaner result with
`after_rows = 5` and a raw loaded count of 7.  The orchestrator read-back
`clean_result.get("after", \x7b\x7d).get("rows", raw_rows)` returns the raw
count 7, not the authoritative `after_rows` 5, because the cleaner emits no
`"after"` key at all. -/
theorem gcs_readback_ignores_after_rows :
    gcsCleanedRows (cleanTableResultEntries 7 5 3 3 0 0) 7 = 7 ∧
    resultAfterRows (cleanTableResultEntries 7 5 3 3 0 0) = some 5 ∧
    pyGet (cleanTableResultEntries 7 5 3 3 0 0) "after" = none := by
  decide

/-! ## C6 — suggested casts versus leading zeros -/

/-- C6 counterexample: a column whose values are 92 percent boolean tokens
and 8 percent leading-zero strings (counts 100/8/0/92/8) receives
`suggested_cast = BOOLEAN` even though `leading_zero_count = 8 > 0`,
contradicting the claim that a cast is suggested only with zero
leading-zero values. -/
theorem type_analysis_cast_with_leading_zeros :
    (typeAnalysisFinding exColCode 100 8 0 92 8).map
      (fun f => (f.suggested_cast, f.leading_zero_count)) =
      some (some tyBOOLEAN, 8) := by
  unfold typeAnalysisFinding typeSevCast
  norm_num [pyRound4]

/-- Decision-chain facts about `typeSevCast` shared by the C6 statement. -/
theorem typeSevCast_spec (nr dr br : ℚ) (lz : ℕ) :
    ((typeSevCast nr dr br lz).snd = some tyDOUBLE → lz = 0 ∧ 9 / 10 < nr) ∧
    ((typeSevCast nr dr br lz).snd = some tyDATE →
      9 / 10 < dr ∧ ¬(0 < lz ∧ 1 / 2 < nr)) ∧
    ((typeSevCast nr dr br lz).snd = some tyBOOLEAN →
      9 / 10 < br ∧ ¬(0 < lz ∧ 1 / 2 < nr)) ∧
    (0 < lz ∧ 1 / 2 < nr →
      (typeSevCast nr dr br lz).fst = sevWarning ∧
      (typeSevCast nr dr br lz).snd = none) := by
  have hbd : tyBOOLEAN ≠ tyDOUBLE := by decide
  have hbt : tyBOOLEAN ≠ tyDATE := by decide
  have hdd : tyDATE ≠ tyDOUBLE := by decide
  have hdb : tyDATE ≠ tyBOOLEAN := by decide
  have hpd : tyDOUBLE ≠ tyDATE := by decide
  have hpb : tyDOUBLE ≠ tyBOOLEAN := by decide
  by_cases h1 : 0 < lz ∧ 1 / 2 < nr
  · unfold typeSevCast
    rw [if_pos h1]
    exact ⟨fun hc => Option.noConfusion hc, fun hc => Option.noConfusion hc,
      fun hc => Option.noConfusion hc, fun _ => ⟨rfl, rfl⟩⟩
  · by_cases h2 : 9 / 10 < br
    · unfold typeSevCast
      rw [if_neg h1, if_pos h2]
      exact ⟨fun hc => absurd (Option.some_inj.mp hc) hbd,
        fun hc => absurd (Option.some_inj.mp hc) hbt,
        fun _ => ⟨h2, h1⟩, fun hc => absurd hc h1⟩
    · by_cases h3 : 9 / 10 < dr
      · unfold typeSevCast
        rw [if_neg h1, if_neg h2, if_pos h3]
        exact ⟨fun hc => absurd (Option.some_inj.mp hc) hdd,
          fun _ => ⟨h3, h1⟩,
          fun hc => absurd (Option.some_inj.mp hc) hdb,
          fun hc => absurd hc h1⟩
      · by_cases h4 : 9 / 10 < nr
        · have hnr2 : (1 : ℚ) / 2 < nr := lt_trans (by norm_num) h4
          have hlz : lz = 0 := by
            rcases Nat.eq_zero_or_pos lz with h | h
            · exact h
            · exact absurd ⟨h, hnr2⟩ h1
          unfold typeSevCast
          rw [if_neg h1, if_neg h2, if_neg h3, if_pos h4]
          exact ⟨fun _ => ⟨hlz, h4⟩,
            fun hc => absurd (Option.some_inj.mp hc) hpd,
            fun hc => absurd (Option.some_inj.mp hc) hpb,
            fun hc => absurd hc h1⟩
        · unfold typeSevCast
          rw [if_neg h1, if_neg h2, if_neg h3, if_neg h4]
          exact ⟨fun hc => Option.noConfusion hc, fun hc => Option.noConfusion hc,
            fun hc => Option.noConfusion hc, fun hc => absurd hc h1⟩

/-- C6 (amended): a DOUBLE cast is suggested only with zero leading-zero
values and numeric rate above 0.9; DATE and BOOLEAN casts require the
respective rate above 0.9 and are blocked by leading zeros only when the
numeric rate also exceeds 0.5; when leading zeros coincide with numeric
castability above 0.5, the severity is warning and the cast is null.  All
rates are the 4-decimal-rounded rates the finding reports. -/
theorem type_analysis_cast_policy (col : String)
    (nn cd cdt cb lz : ℕ) (f : Finding)
    (h : typeAnalysisFinding col nn cd cdt cb lz = some f) :
    (f.suggested_cast = some tyDOUBLE →
      f.leading_zero_count = 0 ∧ 9 / 10 < f.numeric_castable_rate) ∧
    (f.suggested_cast = some tyDATE →
      9 / 10 < f.date_castable_rate ∧
      ¬(0 < f.leading_zero_count ∧ 1 / 2 < f.numeric_castable_rate)) ∧
    (f.suggested_cast = some tyBOOLEAN →
      9 / 10 < f.boolean_castable_rate ∧
      ¬(0 < f.leading_zero_count ∧ 1 / 2 < f.numeric_castable_rate)) ∧
    (0 < f.leading_zero_count ∧ 1 / 2 < f.numeric_castable_rate →
      f.severity = sevWarning ∧ f.suggested_cast = none) := by
  unfold typeAnalysisFinding at h
  split at h
  · exact absurd h (by simp)
  · split at h
    · exact absurd h (by simp)
    · rw [Option.some_inj] at h
      subst h
      exact typeSevCast_spec _ _ _ _

/-- C6 witness: at counts 100/95/0/0/0 the finding suggests DOUBLE, and the
amended statement instantiates with both hypotheses discharged. -/
theorem type_analysis_cast_policy_witness :
    (typeAnalysisFinding exColCode 100 95 0 0 0).map
      (fun f => f.suggested_cast) = some (some tyDOUBLE) ∧
    ∀ f : Finding, typeAnalysisFinding exColCode 100 95 0 0 0 = some f →
      f.suggested_cast = some tyDOUBLE →
      f.leading_zero_count = 0 ∧ 9 / 10 < f.numeric_castable_rate := by
  constructor
  · unfold typeAnalysisFinding typeSevCast
    norm_num [pyRound4]
  · intro f hf
    exact (type_analysis_cast_policy exColCode 100 95 0 0 0 f hf).1

/-! ## C1 — atomic CSV recovery load -/

/-- C1 counterexample: a failed atomic load leaves the parsed table in the
engine-level store (the failure path of `_load_csv_robust` and `load_file`
contains no DROP), so the claim that the table is discarded fails; only the
session registry is left untouched.  Source lines 10/6/1 lose 3 rows. -/
theorem csv_atomic_failure_not_discarded :
    loadFileCsvRecovery [] [] exTableName 10 6 1 exStrategy =
      ([exTableName], [],
        Except.error
          { source_rows := 10, loaded_rows := 6, empty_rows_removed := 1,
            rows_lost := 3, parse_strategy := exStrategy }) := by
  rfl

/-- C1 (amended): whenever loaded rows plus empty rows removed fall short of
the source data-line count, the recovery load fails with the diagnostic
carrying source rows, loaded rows, empty rows removed, rows lost and the
parse strategy, and the failing load does not register the table in the
session registry (the engine-level table, however, is not dropped). -/
theorem csv_atomic_load_policy (registry : List (String × TableMetadata))
    (tname strategy : String) (src total empty : ℤ)
    (h : total + empty < src) :
    ∃ e : AtomicCsvFailure,
      loadCsvRobustResult src total empty (some strategy) = Except.error e ∧
      e.source_rows = src ∧ e.loaded_rows = total ∧
      e.empty_rows_removed = empty ∧ e.rows_lost = src - total - empty ∧
      e.parse_strategy = strategy ∧
      loadFileRegisterStep registry tname
        (loadCsvRobustResult src total empty (some strategy)) = registry := by
  have h0 : 0 < src - total - empty := by omega
  unfold loadCsvRobustResult
  rw [if_pos h0]
  exact ⟨_, rfl, rfl, rfl, rfl, rfl, rfl, rfl⟩

/-- C1 witness: source count 10, loaded 6, one empty row removed. -/
theorem csv_atomic_load_policy_witness :
    ∃ e : AtomicCsvFailure,
      loadCsvRobustResult 10 6 1 (some exStrategy) = Except.error e ∧
      e.source_rows = 10 ∧ e.loaded_rows = 6 ∧
      e.empty_rows_removed = 1 ∧ e.rows_lost = 10 - 6 - 1 ∧
      e.parse_strategy = exStrategy ∧
      loadFileRegisterStep [] exTableName
        (loadCsvRobustResult 10 6 1 (some exStrategy)) = [] :=
  csv_atomic_load_policy [] exTableName exStrategy 10 6 1 (by norm_num)

/-! ## C2 — cleaning never reduces the row count -/

/-- `modifyAt` preserves row width. -/
theorem modifyAt_length (f : Val → Val) (i : ℕ) (r : List Val) :
    (modifyAt f i r).length = r.length := by
  induction r generalizing i with
  | nil => cases i <;> rfl
  | cons v vs ih =>
    cases i with
    | zero => rfl
    | succ n => simpa [modifyAt] using ih n

theorem updateColumn_rows_length (t : Table) (name : String) (f : Val → Val) :
    (updateColumn t name f).rows.length = t.rows.length := by
  unfold updateColumn
  cases colIdx t.header name <;> simp

theorem alterColumnType_rows_length (t : Table) (name newTy : String)
    (f : Val → Val) :
    (alterColumnType t name newTy f).rows.length = t.rows.length := by
  unfold alterColumnType
  cases colIdx t.header name <;> simp

theorem dropColumn_rows_length (t : Table) (name : String) :
    (dropColumn t name).rows.length = t.rows.length := by
  unfold dropColumn
  cases colIdx t.header name <;> simp

/-- A fold whose every step preserves row count preserves row count. -/
theorem foldl_rows_length {β : Type} (step : Table → β → Table)
    (h : ∀ t b, (step t b).rows.length = t.rows.length) (l : List β) (t : Table) :
    (l.foldl step t).rows.length = t.rows.length := by
  induction l generalizing t with
  | nil => rfl
  | cons b bs ih => rw [List.foldl_cons, ih, h]

theorem cleanUnknownChars_rows_length (t : Table) (cols : List String) :
    (cleanUnknownChars t cols).rows.length = t.rows.length :=
  foldl_rows_length _ (fun t' c => updateColumn_rows_length t' c _) cols t

theorem cleanWhitespace_rows_length (t : Table) (cols : List String)
    (findings : List Finding) :
    (cleanWhitespace t cols findings).rows.length = t.rows.length := by
  unfold cleanWhitespace
  exact foldl_rows_length _
    (fun t' c => by split <;> simp [updateColumn_rows_length]) _ t

theorem cleanEmptyStrings_rows_length (t : Table) (cols : List String) :
    (cleanEmptyStrings t cols).rows.length = t.rows.length :=
  foldl_rows_length _
    (fun t' c => by split <;> simp [updateColumn_rows_length]) cols t

theorem cleanNullLikeStrings_rows_length (t : Table) (findings : List Finding) :
    (cleanNullLikeStrings t findings).rows.length = t.rows.length :=
  foldl_rows_length _
    (fun t' f => by split <;> simp [updateColumn_rows_length]) _ t

theorem standardizeDates_rows_length (o : EngineOracles) (t : Table)
    (findings : List Finding) :
    (standardizeDates o t findings).rows.length = t.rows.length :=
  foldl_rows_length _
    (fun t' c => by split <;> simp [updateColumn_rows_length]) _ t

/-- A fold over table-and-extra state whose step preserves the table rows. -/
theorem foldl_fst_rows_length {β γ : Type} (step : Table × γ → β → Table × γ)
    (h : ∀ p b, ((step p b).fst).rows.length = p.fst.rows.length)
    (l : List β) (p : Table × γ) :
    ((l.foldl step p).fst).rows.length = p.fst.rows.length := by
  induction l generalizing p with
  | nil => rfl
  | cons b bs ih => rw [List.foldl_cons, ih, h]

theorem cleanTypeCoercion_rows_length (o : EngineOracles) (t : Table)
    (findings : List Finding) :
    ((cleanTypeCoercion o t findings).fst).rows.length = t.rows.length := by
  unfold cleanTypeCoercion
  exact foldl_fst_rows_length _
    (fun p f => by
      unfold typeCoercionStep
      split
      · rfl
      · split
        · rfl
        · split
          · rfl
          · split
            · rfl
            · split
              · rfl
              · simp [alterColumnType_rows_length]) _ _

theorem normalizeCase_rows_length (t : Table) (cols : List String) :
    (normalizeCase t cols).rows.length = t.rows.length :=
  foldl_rows_length _
    (fun t' c => by
      split
      · rfl
      · split
        · rfl
        · split <;> simp [updateColumn_rows_length]) cols t

theorem dupFlagsGo_length (seen : List (List Val)) (l : List (List Val)) :
    (dupFlagsGo seen l).length = l.length := by
  induction l generalizing seen with
  | nil => rfl
  | cons p rest ih => simpa [dupFlagsGo] using ih (p :: seen)

theorem flagDuplicatesTable_rows_length (t : Table) (idxs : List ℕ) :
    (flagDuplicatesTable t idxs).rows.length = t.rows.length := by
  unfold flagDuplicatesTable
  simp [dupFlagsGo_length]

theorem flagDuplicatesStep_rows_length (t : Table) (findings : List Finding)
    (t8 : Table) (h : flagDuplicatesStep t findings = Except.ok t8) :
    t8.rows.length = t.rows.length := by
  unfold flagDuplicatesStep at h
  split at h
  · rw [Except.ok.injEq] at h
    rw [← h]
  · split at h
    · rw [Except.ok.injEq] at h
      rw [← h]
    · split at h
      · exact absurd h (by simp)
      · rw [Except.ok.injEq] at h
        rw [← h, flagDuplicatesTable_rows_length]

theorem cleanHighNullColumns_rows_length (t : Table) (findings : List Finding) :
    (cleanHighNullColumns t findings).rows.length = t.rows.length :=
  foldl_rows_length _
    (fun t' f => by split <;> simp [dropColumn_rows_length]) _ t

theorem cleanConstantColumns_rows_length (t : Table) (findings : List Finding) :
    (cleanConstantColumns t findings).rows.length = t.rows.length := by
  unfold cleanConstantColumns
  refine foldl_rows_length _ (fun t' f => ?_) _ t
  exact foldl_rows_length _
    (fun t'' c => by split <;> simp [dropColumn_rows_length]) _ t'

theorem cleanPhase1_rows_length (o : EngineOracles) (t : Table)
    (findings : List Finding) :
    ((cleanPhase1 o t findings).fst).rows.length = t.rows.length := by
  unfold cleanPhase1
  rw [normalizeCase_rows_length, cleanTypeCoercion_rows_length,
    standardizeDates_rows_length, cleanNullLikeStrings_rows_length,
    cleanEmptyStrings_rows_length, cleanWhitespace_rows_length,
    cleanUnknownChars_rows_length]

theorem cleanPhase2_rows_length (t : Table) (findings : List Finding) :
    (cleanPhase2 t findings).rows.length = t.rows.length := by
  unfold cleanPhase2
  rw [cleanConstantColumns_rows_length, cleanHighNullColumns_rows_length]

/-- C2: a successful `clean_table` run never reduces the row count — the
after-count equals the before-count (duplicate handling only flags rows), so
in particular `after_rows ≥ before_rows`. -/
theorem clean_table_row_preservation (o : EngineOracles) (t : Table)
    (findings : List Finding) (out : CleanOutcome)
    (h : clean_table o t findings = Except.ok out) :
    out.after_rows = out.before_rows ∧ out.before_rows ≤ out.after_rows := by
  unfold clean_table at h
  cases hfd : flagDuplicatesStep (cleanPhase1 o t findings).fst findings with
  | error e => rw [hfd] at h; exact absurd h (by simp)
  | ok t8 =>
    rw [hfd, Except.ok.injEq] at h
    have h8 := flagDuplicatesStep_rows_length _ _ _ hfd
    have heq : out.after_rows = out.before_rows := by
      rw [← h]
      dsimp only
      rw [cleanPhase2_rows_length, h8, cleanPhase1_rows_length]
    exact ⟨heq, heq.ge⟩

/-- C2 witness: the one-row example table with no findings cleans
successfully with after-count equal to before-count. -/
theorem clean_table_row_preservation_witness :
    clean_table trivialOracles exTable1 [] =
      Except.ok
        { table := exTable1
          before_rows := 1
          after_rows := 1
          identifier_columns := [] } ∧
    (1 : ℕ) ≤ 1 := by
  constructor
  · rfl
  · exact (clean_table_row_preservation trivialOracles exTable1 []
      { table := exTable1
        before_rows := 1
        after_rows := 1
        identifier_columns := [] } (by rfl)).2

/-! ## C4 — protected columns -/

/-- Generic measure preservation along a fold. -/
theorem foldl_measure {α β T : Type} (m : T → α) (step : T → β → T)
    (h : ∀ t b, m (step t b) = m t) (l : List β) (t : T) :
    m (l.foldl step t) = m t := by
  induction l generalizing t with
  | nil => rfl
  | cons b bs ih => rw [List.foldl_cons, ih, h]

theorem updateColumn_header (t : Table) (name : String) (f : Val → Val) :
    (updateColumn t name f).header = t.header := by
  unfold updateColumn
  cases colIdx t.header name <;> rfl

theorem cleanUnknownChars_header (t : Table) (cols : List String) :
    (cleanUnknownChars t cols).header = t.header :=
  foldl_measure Table.header _ (fun t' c => updateColumn_header t' c _) cols t

theorem cleanWhitespace_header (t : Table) (cols : List String)
    (findings : List Finding) :
    (cleanWhitespace t cols findings).header = t.header := by
  unfold cleanWhitespace
  exact foldl_measure Table.header _
    (fun t' c => by split <;> simp [updateColumn_header]) _ t

theorem cleanEmptyStrings_header (t : Table) (cols : List String) :
    (cleanEmptyStrings t cols).header = t.header :=
  foldl_measure Table.header _
    (fun t' c => by split <;> simp [updateColumn_header]) cols t

theorem cleanNullLikeStrings_header (t : Table) (findings : List Finding) :
    (cleanNullLikeStrings t findings).header = t.header :=
  foldl_measure Table.header _
    (fun t' f => by split <;> simp [updateColumn_header]) _ t

theorem standardizeDates_header (o : EngineOracles) (t : Table)
    (findings : List Finding) :
    (standardizeDates o t findings).header = t.header :=
  foldl_measure Table.header _
    (fun t' c => by split <;> simp [updateColumn_header]) _ t

theorem normalizeCase_header (t : Table) (cols : List String) :
    (normalizeCase t cols).header = t.header :=
  foldl_measure Table.header _
    (fun t' c => by
      split
      · rfl
      · split
        · rfl
        · split <;> simp [updateColumn_header]) cols t

/-- `find?` along a name predicate is the head of the filtered list. -/
theorem find?_name_eq_head_filter (l : List Column) (p : String) :
    l.find? (fun c => c.name = p) = (l.filter (fun c => c.name = p)).head? := by
  induction l with
  | nil => rfl
  | cons c cs ih =>
    by_cases h : c.name = p
    · rw [List.find?_cons_of_pos _ (by simpa using h),
        List.filter_cons_of_pos (by simpa using h)]
      rfl
    · rw [List.find?_cons_of_neg _ (by simpa using h),
        List.filter_cons_of_neg (by simpa using h), ih]

/-- `colTy` only depends on the entries named `p`. -/
theorem colTy_eq_filter (t : Table) (p : String) :
    colTy t p = ((t.header.filter (fun c => c.name = p)).head?).map
      (fun c => c.ty) := by
  unfold colTy
  rw [find?_name_eq_head_filter]

/-- Retyping a differently-named column keeps the `p`-named entries. -/
theorem filter_map_retype (l : List Column) (d p newTy : String) (hdp : d ≠ p) :
    (l.map (fun c => if c.name = d then { c with ty := newTy } else c)).filter
      (fun c => c.name = p) = l.filter (fun c => c.name = p) := by
  induction l with
  | nil => rfl
  | cons c cs ih =>
    rw [List.map_cons]
    by_cases h : c.name = d
    · have hnp : ¬ c.name = p := fun hcp => hdp (h.symm.trans hcp)
      rw [if_pos h, List.filter_cons_of_neg (by simpa using hnp),
        List.filter_cons_of_neg (by simpa using hnp), ih]
    · rw [if_neg h]
      by_cases hp : c.name = p
      · rw [List.filter_cons_of_pos (by simpa using hp),
          List.filter_cons_of_pos (by simpa using hp), ih]
      · rw [List.filter_cons_of_neg (by simpa using hp),
          List.filter_cons_of_neg (by simpa using hp), ih]

theorem alterColumnType_filter (t : Table) (d p newTy : String)
    (f : Val → Val) (hdp : d ≠ p) :
    ((alterColumnType t d newTy f).header.filter (fun c => c.name = p)) =
      t.header.filter (fun c => c.name = p) := by
  unfold alterColumnType
  cases colIdx t.header d with
  | none => rfl
  | some i => simpa using filter_map_retype t.header d p newTy hdp

/-- Erasing the first `d`-named entry keeps the `p`-named entries. -/
theorem filter_eraseIdx_name (d p : String) (hdp : d ≠ p) :
    ∀ (l : List Column) (i : ℕ), colIdx l d = some i →
      ((l.eraseIdx i).filter (fun c => c.name = p)) =
        l.filter (fun c => c.name = p) := by
  intro l
  induction l with
  | nil => intro i h; exact absurd h (by simp [colIdx])
  | cons c cs ih =>
    intro i h
    unfold colIdx at h
    rw [List.findIdx?_cons] at h
    by_cases hc : c.name = d
    · rw [if_pos (by simpa using hc)] at h
      have hi : i = 0 := by simpa using h.symm
      subst hi
      have hnp : ¬ c.name = p := fun hcp => hdp (hc.symm.trans hcp)
      show cs.filter (fun c => c.name = p) = _
      rw [List.filter_cons_of_neg (by simpa using hnp)]
    · rw [if_neg (by simpa using hc), List.findIdx?_succ] at h
      cases hj : List.findIdx? (fun c => decide (c.name = d)) cs with
      | none => rw [hj] at h; exact absurd h (by simp)
      | some j =>
        rw [hj] at h
        have hi : i = j + 1 := by simpa using h.symm
        subst hi
        have hrec := ih j (by unfold colIdx; exact hj)
        show (c :: cs.eraseIdx j).filter (fun c => c.name = p) = _
        by_cases hp : c.name = p
        · rw [List.filter_cons_of_pos (by simpa using hp),
            List.filter_cons_of_pos (by simpa using hp), hrec]
        · rw [List.filter_cons_of_neg (by simpa using hp),
            List.filter_cons_of_neg (by simpa using hp), hrec]

theorem dropColumn_filter (t : Table) (d p : String) (hdp : d ≠ p) :
    ((dropColumn t d).header.filter (fun c => c.name = p)) =
      t.header.filter (fun c => c.name = p) := by
  unfold dropColumn
  cases hidx : colIdx t.header d with
  | none => rfl
  | some i => simpa using filter_eraseIdx_name d p hdp t.header i hidx

/-- The coercion fold touches no protected column. -/
theorem cleanTypeCoercion_filter_protected (o : EngineOracles) (t : Table)
    (findings : List Finding) (p : String) (hp : p ∈ protectedColumns) :
    ((cleanTypeCoercion o t findings).fst).header.filter
      (fun c => c.name = p) = t.header.filter (fun c => c.name = p) := by
  unfold cleanTypeCoercion
  refine foldl_measure
    (fun pr : Table × List IdentifierColumn =>
      pr.fst.header.filter (fun c => c.name = p))
    _ (fun pr f => ?_) _ _
  unfold typeCoercionStep
  split
  · rfl
  · rename_i hprot
    split
    · rfl
    · split
      · rfl
      · rename_i ty _heq
        split
        · rfl
        · split
          · rfl
          · have hdp : f.column ≠ p := fun hcp => hprot (by rwa [hcp])
            simpa using alterColumnType_filter pr.fst f.column p ty _ hdp

theorem cleanHighNullColumns_filter_protected (t : Table)
    (findings : List Finding) (p : String) (hp : p ∈ protectedColumns) :
    ((cleanHighNullColumns t findings).header.filter (fun c => c.name = p)) =
      t.header.filter (fun c => c.name = p) := by
  unfold cleanHighNullColumns
  refine foldl_measure
    (fun t' : Table => t'.header.filter (fun c => c.name = p))
    _ (fun t' f => ?_) _ _
  split
  · rfl
  · rename_i hprot
    exact dropColumn_filter t' f.column p (fun hcp => hprot (hcp ▸ hp))

theorem cleanConstantColumns_filter_protected (t : Table)
    (findings : List Finding) (p : String) (hp : p ∈ protectedColumns) :
    ((cleanConstantColumns t findings).header.filter (fun c => c.name = p)) =
      t.header.filter (fun c => c.name = p) := by
  unfold cleanConstantColumns
  refine foldl_measure
    (fun t' : Table => t'.header.filter (fun c => c.name = p))
    _ (fun t' f => ?_) _ _
  refine foldl_measure
    (fun t'' : Table => t''.header.filter (fun c => c.name = p))
    _ (fun t'' col => ?_) _ _
  split
  · rfl
  · rename_i hprot
    exact dropColumn_filter t'' col p (fun hcp => hprot (hcp ▸ hp))

theorem cleanPhase1_filter_protected (o : EngineOracles) (t : Table)
    (findings : List Finding) (p : String) (hp : p ∈ protectedColumns) :
    ((cleanPhase1 o t findings).fst).header.filter (fun c => c.name = p) =
      t.header.filter (fun c => c.name = p) := by
  unfold cleanPhase1
  rw [normalizeCase_header, cleanTypeCoercion_filter_protected _ _ _ _ hp,
    standardizeDates_header, cleanNullLikeStrings_header,
    cleanEmptyStrings_header, cleanWhitespace_header, cleanUnknownChars_header]

theorem cleanPhase2_filter_protected (t : Table) (findings : List Finding)
    (p : String) (hp : p ∈ protectedColumns) :
    ((cleanPhase2 t findings).header.filter (fun c => c.name = p)) =
      t.header.filter (fun c => c.name = p) := by
  unfold cleanPhase2
  rw [cleanConstantColumns_filter_protected _ _ _ hp,
    cleanHighNullColumns_filter_protected _ _ _ hp]

/-- Names with a nonempty name filter are present in the column list. -/
theorem mem_columnNames_of_filter_ne_nil (t : Table) (p : String)
    (h : t.header.filter (fun c => c.name = p) ≠ []) :
    p ∈ columnNames t := by
  cases hf : t.header.filter (fun c => c.name = p) with
  | nil => exact absurd hf h
  | cons c cs =>
    have hc : c ∈ t.header.filter (fun c => c.name = p) := by
      rw [hf]; exact List.mem_cons_self c cs
    rw [List.mem_filter] at hc
    have : c.name = p := by simpa using hc.2
    exact this ▸ List.mem_map_of_mem (fun col => col.name) hc.1

/-- Step 8 keeps the protected name filter whenever the column is already
present and the step succeeds. -/
theorem flagDuplicatesStep_filter_protected (t : Table)
    (findings : List Finding) (t8 : Table) (p : String)
    (hp : p ∈ protectedColumns) (hpres : p ∈ columnNames t)
    (h : flagDuplicatesStep t findings = Except.ok t8) :
    t8.header.filter (fun c => c.name = p) =
      t.header.filter (fun c => c.name = p) := by
  unfold flagDuplicatesStep at h
  split at h
  · rw [Except.ok.injEq] at h; rw [← h]
  · split at h
    · rw [Except.ok.injEq] at h; rw [← h]
    · split at h
      · exact absurd h (by simp)
      · rename_i hnotdup
        have hpd : p ≠ colIsDuplicate := by
          intro hpd
          exact hnotdup (by
            have := hpres
            unfold columnNames at this ⊢
            exact hpd ▸ this)
        rw [Except.ok.injEq] at h
        rw [← h]
        unfold flagDuplicatesTable
        simp only [List.filter_append]
        have hsingle : List.filter (fun c => c.name = p)
            ([{ name := colIsDuplicate, ty := tyBOOLEAN }] : List Column) = [] := by
          rw [List.filter_cons_of_neg]
          · rfl
          · simpa using fun hx => hpd hx.symm
        rw [hsingle, List.append_nil]

/-- C4 (amended): the quality scanner excludes exactly `processed_at` from
its check-column list (an `is_duplicate` source column is scanned — see the
counterexample), and no cleaning step drops, renames or coerces either
protected column: on a successful clean, a protected column present before
cleaning is present afterwards with its name and declared type unchanged. -/
theorem protected_columns_policy (columns : List String) (o : EngineOracles)
    (t : Table) (findings : List Finding) (out : CleanOutcome) (p τ : String)
    (hp : p ∈ protectedColumns) (hty : colTy t p = some τ)
    (hok : clean_table o t findings = Except.ok out) :
    colTy out.table p = some τ ∧
    colProcessedAt ∉ qualityCheckColumns columns := by
  constructor
  · unfold clean_table at hok
    cases hfd : flagDuplicatesStep (cleanPhase1 o t findings).fst findings with
    | error e => rw [hfd] at hok; exact absurd hok (by simp)
    | ok t8 =>
      rw [hfd, Except.ok.injEq] at hok
      have h1 := cleanPhase1_filter_protected o t findings p hp
      have hne : t.header.filter (fun c => c.name = p) ≠ [] := by
        intro hnil
        rw [colTy_eq_filter, hnil] at hty
        exact absurd hty (by simp)
      have hpres : p ∈ columnNames (cleanPhase1 o t findings).fst := by
        apply mem_columnNames_of_filter_ne_nil
        rw [h1]; exact hne
      have h8 := flagDuplicatesStep_filter_protected _ _ _ _ hp hpres hfd
      have h2 := cleanPhase2_filter_protected t8 findings p hp
      rw [← hok]
      dsimp only
      rw [colTy_eq_filter, h2, h8, h1, ← colTy_eq_filter]
      exact hty
  · unfold qualityCheckColumns
    intro hmem
    rw [List.mem_filter] at hmem
    have hcontra : ¬ (colProcessedAt = colProcessedAt) := by simpa using hmem.2
    exact hcontra rfl

/-- C4 witness: a table carrying both protected columns cleans successfully
with both names and types intact. -/
theorem protected_columns_policy_witness :
    clean_table trivialOracles exTableC4W [] = Except.ok outC4W ∧
    colTy outC4W.table colProcessedAt = some tyTIMESTAMP ∧
    colProcessedAt ∉ qualityCheckColumns [exColA, colProcessedAt] :=
  ⟨by rfl,
   (protected_columns_policy [exColA, colProcessedAt] trivialOracles
     exTableC4W [] outC4W colProcessedAt tyTIMESTAMP (by decide) (by rfl)
     (by rfl)).1,
   (protected_columns_policy [exColA, colProcessedAt] trivialOracles
     exTableC4W [] outC4W colProcessedAt tyTIMESTAMP (by decide) (by rfl)
     (by rfl)).2⟩

/-- C4 counterexample: the quality scanner does scan an `is_duplicate`
source column — the combined null-like/whitespace pass emits a finding whose
column is `is_duplicate`, contradicting the claim that protected columns are
never scanned for issues. -/
theorem quality_scan_scans_is_duplicate :
    (batchNullLikeAndWhitespace exTableC4 (scannerVarcharCols exTableC4)).map
      (fun f => f.column) = [colIsDuplicate] := by
  rfl

/-! ## C3 — leading-zero identifier columns -/

/-- The coercion fold only ever appends identifier records. -/
theorem typeCoercionStep_snd_mono (o : EngineOracles)
    (acc : Table × List IdentifierColumn) (f : Finding)
    (x : IdentifierColumn) (hx : x ∈ acc.snd) :
    x ∈ (typeCoercionStep o acc f).snd := by
  unfold typeCoercionStep
  split
  · exact hx
  · split
    · exact List.mem_append_left _ hx
    · split
      · exact hx
      · split
        · exact hx
        · split
          · exact hx
          · exact hx

theorem foldl_typeCoercion_snd_mono (o : EngineOracles) (l : List Finding)
    (acc : Table × List IdentifierColumn) (x : IdentifierColumn)
    (hx : x ∈ acc.snd) : x ∈ (l.foldl (typeCoercionStep o) acc).snd := by
  induction l generalizing acc with
  | nil => exact hx
  | cons g gs ih => exact ih _ (typeCoercionStep_snd_mono o acc g x hx)

/-- A leading-zero, non-protected finding in the fold list yields its
identifier record in the fold result. -/
theorem foldl_typeCoercion_snd_mem (o : EngineOracles) (f : Finding)
    (hprot : f.column ∉ protectedColumns) (hlz : 0 < f.leading_zero_count) :
    ∀ (l : List Finding) (acc : Table × List IdentifierColumn), f ∈ l →
      ({ column := f.column, pattern := "leading_zeros",
         preserved_as := tyVARCHAR } : IdentifierColumn) ∈
        (l.foldl (typeCoercionStep o) acc).snd := by
  intro l
  induction l with
  | nil => intro acc hf; cases hf
  | cons g gs ih =>
    intro acc hf
    rcases List.mem_cons.mp hf with hg | hg
    · have hstep : ({ column := f.column,
                        pattern := "leading_zeros",
                        preserved_as := tyVARCHAR } : IdentifierColumn) ∈
          (typeCoercionStep o acc f).snd := by
        unfold typeCoercionStep
        rw [if_neg hprot, if_pos hlz]
        exact List.mem_append_right _ (List.mem_singleton.mpr rfl)
      rw [List.foldl_cons, ← hg]
      exact foldl_typeCoercion_snd_mono o gs _ _ hstep
    · exact ih _ hg

theorem textTyped_of_header_eq (T T' : Table) (c : String)
    (h : T'.header = T.header) (ht : textTyped T c) : textTyped T' c := by
  intro col hm hname
  rw [h] at hm
  exact ht col hm hname

theorem textTyped_alter (T : Table) (c d newTy : String) (g : Val → Val)
    (hne : d ≠ c) (ht : textTyped T c) :
    textTyped (alterColumnType T d newTy g) c := by
  unfold alterColumnType
  cases colIdx T.header d with
  | none => exact ht
  | some i =>
    intro col hm hname
    obtain ⟨pre, hpre, hg⟩ := List.mem_map.mp hm
    by_cases hpd : pre.name = d
    · rw [if_pos hpd] at hg
      have : col.name = d := by rw [← hg]; exact hpd
      exact absurd (this ▸ hname) hne
    · rw [if_neg hpd] at hg
      exact ht col (hg ▸ hpre) hname

theorem textTyped_drop (T : Table) (c d : String) (ht : textTyped T c) :
    textTyped (dropColumn T d) c := by
  unfold dropColumn
  cases colIdx T.header d with
  | none => exact ht
  | some i =>
    intro col hm hname
    exact ht col ((T.header.eraseIdx_sublist i).subset hm) hname

theorem textTyped_flagDuplicatesTable (T : Table) (c : String)
    (idxs : List ℕ) (hc : c ≠ colIsDuplicate) (ht : textTyped T c) :
    textTyped (flagDuplicatesTable T idxs) c := by
  unfold flagDuplicatesTable
  intro col hm hname
  rcases List.mem_append.mp hm with hold | hnew
  · exact ht col hold hname
  · have : col = { name := colIsDuplicate, ty := tyBOOLEAN } := by
      simpa using hnew
    rw [this] at hname
    exact absurd (show c = colIsDuplicate from hname.symm) hc

theorem textTyped_coercion_fold (o : EngineOracles) (c : String) :
    ∀ (l : List Finding) (acc : Table × List IdentifierColumn),
      (∀ g ∈ l, g.column = c → 0 < g.leading_zero_count) →
      textTyped acc.fst c → textTyped ((l.foldl (typeCoercionStep o) acc).fst) c := by
  intro l
  induction l with
  | nil => intro acc _ ht; exact ht
  | cons g gs ih =>
    intro acc hsafe ht
    refine ih _ (fun x hx => hsafe x (List.mem_cons_of_mem g hx)) ?_
    unfold typeCoercionStep
    split
    · exact ht
    · split
      · exact ht
      · rename_i hlzneg
        split
        · exact ht
        · rename_i ty _heq
          split
          · exact ht
          · split
            · exact ht
            · refine textTyped_alter acc.fst c g.column ty _ ?_ ht
              intro hgc
              exact hlzneg (hsafe g (List.mem_cons_self g gs) hgc)

theorem textTyped_cleanHighNull (T : Table) (c : String)
    (findings : List Finding) (ht : textTyped T c) :
    textTyped (cleanHighNullColumns T findings) c := by
  unfold cleanHighNullColumns
  induction (findings.filter (fun f =>
      f.category = catNullAnalysis ∧ mkRat 9 10 < f.null_rate)) generalizing T with
  | nil => exact ht
  | cons g gs ih =>
    rw [List.foldl_cons]
    apply ih
    split
    · exact ht
    · exact textTyped_drop T c g.column ht

theorem textTyped_cleanConstant (T : Table) (c : String)
    (findings : List Finding) (ht : textTyped T c) :
    textTyped (cleanConstantColumns T findings) c := by
  unfold cleanConstantColumns
  induction (findings.filter (fun f => f.category = catConstantColumns))
      generalizing T with
  | nil => exact ht
  | cons g gs ih =>
    rw [List.foldl_cons]
    apply ih
    induction g.columns generalizing T with
    | nil => exact ht
    | cons col cols ih2 =>
      rw [List.foldl_cons]
      apply ih2
      split
      · exact ht
      · exact textTyped_drop T c col ht

theorem textTyped_flagDuplicatesStep (T T8 : Table) (c : String)
    (findings : List Finding) (hc : c ≠ colIsDuplicate)
    (h : flagDuplicatesStep T findings = Except.ok T8)
    (ht : textTyped T c) : textTyped T8 c := by
  unfold flagDuplicatesStep at h
  split at h
  · rw [Except.ok.injEq] at h; exact h ▸ ht
  · split at h
    · rw [Except.ok.injEq] at h; exact h ▸ ht
    · split at h
      · exact absurd h (by simp)
      · rw [Except.ok.injEq] at h
        exact h ▸ textTyped_flagDuplicatesTable T c _ hc ht

theorem textTyped_cleanPhase1 (o : EngineOracles) (t : Table)
    (findings : List Finding) (c : String)
    (hsafe : ∀ g ∈ findings, g.category = catTypeAnalysis → g.column = c →
      0 < g.leading_zero_count)
    (ht : textTyped t c) : textTyped ((cleanPhase1 o t findings).fst) c := by
  unfold cleanPhase1
  apply textTyped_of_header_eq _ _ _ (normalizeCase_header _ _)
  unfold cleanTypeCoercion
  apply textTyped_coercion_fold
  · intro g hg hgc
    rw [List.mem_filter] at hg
    have hcat : g.category = catTypeAnalysis := by
      have := of_decide_eq_true hg.2
      exact this.1
    exact hsafe g hg.1 hcat hgc
  · dsimp only
    apply textTyped_of_header_eq _ _ _ (standardizeDates_header _ _ _)
    apply textTyped_of_header_eq _ _ _ (cleanNullLikeStrings_header _ _)
    apply textTyped_of_header_eq _ _ _ (cleanEmptyStrings_header _ _)
    apply textTyped_of_header_eq _ _ _ (cleanWhitespace_header _ _ _)
    exact textTyped_of_header_eq _ _ _ (cleanUnknownChars_header _ _) ht

/-- C3 (amended): a VARCHAR column whose (unique per column) type-analysis
finding reports leading zeros is never cast by the coercion step: it is
recorded in `identifier_columns` with pattern `leading_zeros` preserved as
VARCHAR, and every surviving occurrence of the column after cleaning is
still VARCHAR.  (The column may still be removed outright by the high-null
or constant-column steps — see the counterexample — and the protected column
names are skipped by the coercion step entirely.) -/
theorem leading_zero_columns_stay_text (o : EngineOracles) (t : Table)
    (findings : List Finding) (out : CleanOutcome) (f : Finding) (c : String)
    (hf : f ∈ findings) (hcat : f.category = catTypeAnalysis)
    (hcol : f.column = c) (hlz : 0 < f.leading_zero_count)
    (huniq : ∀ g ∈ findings, g.category = catTypeAnalysis → g.column = c → g = f)
    (hprot : c ∉ protectedColumns) (hvc : textTyped t c)
    (hok : clean_table o t findings = Except.ok out) :
    ({ column := c, pattern := "leading_zeros",
       preserved_as := tyVARCHAR } : IdentifierColumn) ∈
      out.identifier_columns ∧
    textTyped out.table c := by
  have hcdup : c ≠ colIsDuplicate := by
    intro hcd
    exact hprot (by rw [hcd]; exact List.mem_cons_of_mem _ (List.mem_singleton.mpr rfl))
  have hsafe : ∀ g ∈ findings, g.category = catTypeAnalysis → g.column = c →
      0 < g.leading_zero_count := by
    intro g hg hgcat hgc
    rw [huniq g hg hgcat hgc]
    exact hlz
  unfold clean_table at hok
  cases hfd : flagDuplicatesStep (cleanPhase1 o t findings).fst findings with
  | error e => rw [hfd] at hok; exact absurd hok (by simp)
  | ok t8 =>
    rw [hfd, Except.ok.injEq] at hok
    constructor
    · rw [← hok]
      dsimp only
      unfold cleanPhase1
      dsimp only
      unfold cleanTypeCoercion
      rw [← hcol]
      apply foldl_typeCoercion_snd_mem o f (hcol ▸ hprot) hlz
      rw [List.mem_filter]
      refine ⟨hf, ?_⟩
      apply decide_eq_true
      exact ⟨hcat, Or.inr hlz⟩
    · rw [← hok]
      dsimp only
      have h1 := textTyped_cleanPhase1 o t findings c hsafe hvc
      have h8 := textTyped_flagDuplicatesStep _ _ _ _ hcdup hfd h1
      unfold cleanPhase2
      exact textTyped_cleanConstant _ _ _ (textTyped_cleanHighNull _ _ _ h8)

/-- C3 counterexample: with a leading-zero finding and a high-null finding on
the same VARCHAR zip column, cleaning records the identifier but then drops
the column, so after cleaning the column does not exist and in particular is
no longer of text type. -/
theorem leading_zero_column_dropped :
    clean_table trivialOracles exTableC3 [exFindingZipLZ, exFindingZipNull] =
      Except.ok outC3 ∧
    colTy outC3.table exColZip = none ∧
    0 < exFindingZipLZ.leading_zero_count ∧
    colTy exTableC3 exColZip = some tyVARCHAR := by
  refine ⟨?_, by rfl, by decide, by rfl⟩
  rfl

/-- C3 witness: a finding with three leading zeros on a zip column and no
other findings; the column survives with VARCHAR type and the identifier
record is emitted. -/
theorem leading_zero_columns_stay_text_witness :
    clean_table trivialOracles exTableC3 [exFindingZipLZ] = Except.ok outC3W ∧
    ({ column := exColZip, pattern := "leading_zeros",
       preserved_as := tyVARCHAR } : IdentifierColumn) ∈
      outC3W.identifier_columns ∧
    textTyped outC3W.table exColZip := by
  have hvc : textTyped exTableC3 exColZip := by
    intro col hm _
    rcases List.mem_cons.mp hm with h | h
    · rw [h]
    · rw [List.mem_singleton.mp h]
  have happ := leading_zero_columns_stay_text trivialOracles exTableC3
    [exFindingZipLZ] outC3W exFindingZipLZ exColZip
    (List.mem_singleton.mpr rfl) (by rfl) (by rfl) (by decide)
    (fun g hg _ _ => List.mem_singleton.mp hg) (by decide) hvc (by rfl)
  exact ⟨by rfl, happ.1, happ.2⟩

/-! ## C5 — duplicate suffixing in `normalize_column_names` -/

theorem pyGet_cons (a : String) (v : ℕ) (seen : List (String × ℕ)) (m : String) :
    pyGet ((a, v) :: seen) m = if a = m then some v else pyGet seen m := rfl

theorem pyGet_bumpSeen (seen : List (String × ℕ)) (n m : String) :
    pyGet (bumpSeen seen n) m =
      if m = n then (pyGet seen n).map (fun k => k + 1) else pyGet seen m := by
  induction seen with
  | nil => by_cases h : m = n <;> simp [bumpSeen, pyGet, h]
  | cons e rest ih =>
    obtain ⟨a, v⟩ := e
    by_cases ha : a = n
    · by_cases ham : a = m
      · have hmn : m = n := by rw [← ham, ha]
        simp [bumpSeen, pyGet, ha, ham, hmn]
      · have hmn : ¬ m = n := fun hc => ham (by rw [ha, ← hc])
        have hnm : ¬ n = m := fun hc => hmn hc.symm
        simp [bumpSeen, pyGet, ha, ham, hmn, hnm, ih]
    · by_cases ham : a = m
      · have hmn : ¬ m = n := fun hc => ha (by rw [ham, hc])
        simp [bumpSeen, pyGet, ha, ham, hmn]
      · simp [bumpSeen, pyGet, ha, ham, ih]

theorem count_append_singleton_ne (p : List String) (n m : String)
    (h : ¬ n = m) : (p ++ [n]).count m = p.count m := by
  rw [List.count_append]
  have hz : List.count m [n] = 0 := by
    simp [List.count_cons]
    exact fun hc => h hc
  omega

theorem count_append_singleton_self (p : List String) (n : String) :
    (p ++ [n]).count n = p.count n + 1 := by
  rw [List.count_append]
  have hz : List.count n [n] = 1 := by simp
  omega

theorem dupSuffixFrom_cons (p : List String) (n : String) (rest : List String)
    (j : ℕ) :
    dupSuffixFrom (p ++ [n]) rest j = dupSuffixFrom p (n :: rest) (j + 1) := by
  unfold dupSuffixFrom
  have hget : (n :: rest).getD (j + 1) "" = rest.getD j "" := rfl
  have hcount : ∀ m : String,
      (p ++ [n]).count m + (rest.take j).count m =
        p.count m + ((n :: rest).take (j + 1)).count m := by
    intro m
    by_cases hmn : m = n
    · subst hmn
      rw [count_append_singleton_self, List.take_succ_cons, List.count_cons]
      simp
      omega
    · rw [count_append_singleton_ne p n m (fun hc => hmn hc.symm),
        List.take_succ_cons, List.count_cons]
      simp [hmn]
      exact fun hc => hmn hc.symm
  rw [hget, hcount]

/-- `seenModels` holds for the extended dict after inserting a new name. -/
theorem seenModels_insert (seen : List (String × ℕ)) (p : List String)
    (n : String) (hmodel : seenModels seen p) (hzero : p.count n = 0) :
    seenModels ((n, 0) :: seen) (p ++ [n]) := by
  intro m
  rw [pyGet_cons]
  by_cases h : n = m
  · subst h
    have hone : (p ++ [n]).count n = 1 := by
      rw [count_append_singleton_self, hzero]
    rw [if_pos rfl, hone]
    norm_num
  · have heq : (p ++ [n]).count m = p.count m := count_append_singleton_ne p n m h
    rw [if_neg h, heq, hmodel m]

/-- `seenModels` holds after bumping an existing name. -/
theorem seenModels_bump (seen : List (String × ℕ)) (p : List String)
    (n : String) (k : ℕ) (hmodel : seenModels seen p)
    (hk : pyGet seen n = some k) :
    seenModels (bumpSeen seen n) (p ++ [n]) := by
  have hcount : p.count n = k + 1 := by
    have hl := hmodel n
    rw [hk] at hl
    by_cases hz : p.count n = 0
    · rw [if_pos hz] at hl; exact absurd hl (by simp)
    · rw [if_neg hz] at hl
      have := Option.some_inj.mp hl
      omega
  intro m
  rw [pyGet_bumpSeen]
  by_cases h : m = n
  · subst h
    rw [if_pos rfl, hk]
    have h2 : (p ++ [m]).count m = k + 2 := by
      rw [count_append_singleton_self, hcount]
    rw [h2]
    norm_num
  · have heq : (p ++ [n]).count m = p.count m :=
      count_append_singleton_ne p n m (fun hc => h hc.symm)
    rw [if_neg h, heq, hmodel m]

/-- The loop of `make_unique` computes, positionally, the occurrence-indexed
suffix relative to the processed prefix. -/
theorem makeUniqueGo_spec (l : List String) :
    ∀ (p : List String) (seen : List (String × ℕ)), seenModels seen p →
      (makeUniqueGo seen l).length = l.length ∧
      ∀ i, i < l.length →
        (makeUniqueGo seen l).getD i "" = dupSuffixFrom p l i := by
  induction l with
  | nil =>
    intro p seen _
    exact ⟨rfl, fun i hi => absurd hi (by simp)⟩
  | cons n rest ih =>
    intro p seen hmodel
    have hlook := hmodel n
    cases hg : pyGet seen n with
    | none =>
      have hzero : p.count n = 0 := by
        by_contra hne
        rw [hg, if_neg hne] at hlook
        exact absurd hlook (by simp)
      have ihx := ih (p ++ [n]) ((n, 0) :: seen)
        (seenModels_insert seen p n hmodel hzero)
      unfold makeUniqueGo
      rw [hg]
      constructor
      · simpa using ihx.1
      · intro i hi
        cases i with
        | zero => simp [dupSuffixFrom, hzero]
        | succ j =>
          have hj : j < rest.length := by simpa using hi
          have hspec := ihx.2 j hj
          rw [dupSuffixFrom_cons] at hspec
          simpa using hspec
    | some k =>
      have ihx := ih (p ++ [n]) (bumpSeen seen n)
        (seenModels_bump seen p n k hmodel hg)
      have hcount : p.count n = k + 1 := by
        rw [hg] at hlook
        by_cases hz : p.count n = 0
        · rw [if_pos hz] at hlook; exact absurd hlook (by simp)
        · rw [if_neg hz] at hlook
          have := Option.some_inj.mp hlook
          omega
      unfold makeUniqueGo
      rw [hg]
      constructor
      · simpa using ihx.1
      · intro i hi
        cases i with
        | zero => simp [dupSuffixFrom, hcount]
        | succ j =>
          have hj : j < rest.length := by simpa using hi
          have hspec := ihx.2 j hj
          rw [dupSuffixFrom_cons] at hspec
          simpa using hspec

/-- C5 (amended): `normalize_column_names` preserves the length, and each
position carries the normalized name with suffix `_k` when it is the k-th
repeat of that normalized name, in order of occurrence.  (The output need
not be pairwise distinct: a suffixed name can collide with an input name —
see the counterexample.) -/
theorem normalize_column_names_length_and_suffixes (xs : List String) :
    (normalize_column_names xs).length = xs.length ∧
    ∀ i, i < xs.length →
      (normalize_column_names xs).getD i "" =
        dupSuffixAt (xs.map normalize_column_name) i := by
  have h := makeUniqueGo_spec (xs.map normalize_column_name) [] []
    (fun n => by simp [pyGet])
  unfold normalize_column_names make_unique dupSuffixAt
  constructor
  · rw [h.1, List.length_map]
  · intro i hi
    exact h.2 i (by rw [List.length_map]; exact hi)

/-- C5 witness: the three-name vector `a, a_1, a` instantiates the amended
statement at its last position. -/
theorem normalize_column_names_length_and_suffixes_witness :
    (normalize_column_names [exColA, exColA1, exColA]).length = 3 ∧
    (normalize_column_names [exColA, exColA1, exColA]).getD 2 "" =
      dupSuffixAt ([exColA, exColA1, exColA].map normalize_column_name) 2 :=
  ⟨(normalize_column_names_length_and_suffixes [exColA, exColA1, exColA]).1,
   (normalize_column_names_length_and_suffixes [exColA, exColA1, exColA]).2 2
     (by norm_num)⟩

/-- C5 counterexample: the input `a, a_1, a` normalizes and deduplicates to
`a, a_1, a_1` — the suffix assigned to the duplicate `a` collides with the
pre-existing `a_1`, so the output is not pairwise distinct. -/
theorem normalize_column_names_not_distinct :
    normalize_column_names [exColA, exColA1, exColA] =
      [exColA, exColA1, exColA1] ∧
    ¬ List.Pairwise (fun a b => a ≠ b)
      (normalize_column_names [exColA, exColA1, exColA]) := by
  have h : normalize_column_names [exColA, exColA1, exColA] =
      [exColA, exColA1, exColA1] := by
    simp [normalize_column_names, make_unique, makeUniqueGo,
      normalize_column_name, camelBoundarySub, camelLowerUpperSub,
      specialCharsSub, stripUnderscores, collapseUnderscores, pyLower,
      isAlnumLower, isLowerAZ, isDigit09, isUpperAZ, pyGet, bumpSeen,
      exColA, exColA1]
    rfl
  refine ⟨h, ?_⟩
  rw [h]
  intro hp
  have h12 := (List.pairwise_cons.mp (List.pairwise_cons.mp hp).2).1
  exact h12 exColA1 (List.mem_singleton.mpr rfl) rfl

/-! ## C10 — idempotence of `normalize_column_name` -/

/-- Lowercase alphanumerics are not ASCII uppercase. -/
theorem not_upper_of_alnumLower (c : Char) (h : isAlnumLower c = true) :
    isUpperAZ c = false := by
  unfold isAlnumLower isLowerAZ isDigit09 at h
  unfold isUpperAZ
  rcases Bool.or_eq_true_iff.mp h with hl | hd
  · rcases Bool.and_eq_true_iff.mp hl with ⟨h1, h2⟩
    by_contra hu
    rcases Bool.and_eq_true_iff.mp (Bool.of_not_eq_false hu) with ⟨_, h4⟩
    have : 'a' ≤ 'Z' := le_trans (of_decide_eq_true h1) (of_decide_eq_true h4)
    exact absurd this (by decide)
  · rcases Bool.and_eq_true_iff.mp hd with ⟨h1, h2⟩
    by_contra hu
    rcases Bool.and_eq_true_iff.mp (Bool.of_not_eq_false hu) with ⟨h3, _⟩
    have : 'A' ≤ '9' := le_trans (of_decide_eq_true h3) (of_decide_eq_true h2)
    exact absurd this (by decide)

/-- The underscore is not uppercase and not lowercase-alphanumeric. -/
theorem und_not_upper : isUpperAZ '_' = false := by decide

theorem und_not_alnum : isAlnumLower '_' = false := by decide

/-- `camelBoundarySub` is the identity on uppercase-free inputs. -/
theorem camelBoundarySub_id (l : List Char)
    (h : ∀ c ∈ l, isUpperAZ c = false) : camelBoundarySub l = l := by
  induction l using camelBoundarySub.induct with
  | case1 => rw [camelBoundarySub.eq_def]
  | case2 c => rw [camelBoundarySub.eq_def]
  | case3 c d rest hguard ih =>
    exact absurd (h d (List.mem_cons_of_mem c (List.mem_cons_self d rest)))
      (by simp [Bool.and_eq_true_iff.mp hguard])
  | case4 c d rest hguard ih =>
    rw [camelBoundarySub.eq_def]
    simp only []
    rw [if_neg hguard]
    rw [ih (fun x hx => h x (List.mem_cons_of_mem c hx))]

/-- `camelLowerUpperSub` is the identity on uppercase-free inputs. -/
theorem camelLowerUpperSub_id (l : List Char)
    (h : ∀ c ∈ l, isUpperAZ c = false) : camelLowerUpperSub l = l := by
  induction l using camelLowerUpperSub.induct with
  | case1 => rfl
  | case2 c => rfl
  | case3 c d rest hguard ih =>
    exact absurd (h d (List.mem_cons_of_mem c (List.mem_cons_self d rest)))
      (by simp [Bool.and_eq_true_iff.mp hguard])
  | case4 c d rest hguard ih =>
    rw [camelLowerUpperSub, if_neg hguard,
      ih (fun x hx => h x (List.mem_cons_of_mem c hx))]

/-- `pyLower` fixes non-uppercase characters. -/
theorem pyLower_id (c : Char) (h : isUpperAZ c = false) : pyLower c = c := by
  unfold pyLower
  rw [if_neg (by simp [h])]

theorem map_pyLower_id (l : List Char)
    (h : ∀ c ∈ l, isUpperAZ c = false) : l.map pyLower = l := by
  induction l with
  | nil => rfl
  | cons c tl ih =>
    rw [List.map_cons, pyLower_id c (h c (List.mem_cons_self c tl)),
      ih (fun x hx => h x (List.mem_cons_of_mem c hx))]

/-- Characters produced by `specialCharsSub` are lowercase alphanumeric or
underscore. -/
theorem specialCharsSub_chars (l : List Char) :
    ∀ c ∈ specialCharsSub l, isAlnumLower c = true ∨ c = '_' := by
  induction l using specialCharsSub.induct with
  | case1 => intro c hc; rw [specialCharsSub.eq_def] at hc; cases hc
  | case2 c tl halnum ih =>
    intro x hx
    rw [specialCharsSub.eq_def] at hx
    simp only [] at hx
    rw [if_pos halnum] at hx
    rcases List.mem_cons.mp hx with h1 | h1
    · exact Or.inl (h1 ▸ halnum)
    · exact ih x h1
  | case3 c tl halnum ih =>
    intro x hx
    rw [specialCharsSub.eq_def] at hx
    simp only [] at hx
    rw [if_neg halnum] at hx
    rcases List.mem_cons.mp hx with h1 | h1
    · exact Or.inr h1
    · exact ih x h1

/-- The head of a `dropWhile` result falsifies the predicate. -/
theorem head?_dropWhile_not {α : Type} (p : α → Bool) (l : List α) (c : α)
    (h : (l.dropWhile p).head? = some c) : p c = false := by
  induction l with
  | nil => exact absurd h (by simp)
  | cons a tl ih =>
    rw [List.dropWhile_cons] at h
    by_cases hp : p a = true
    · rw [if_pos hp] at h
      exact ih h
    · rw [if_neg hp] at h
      have : a = c := by simpa using h
      rw [← this]
      exact Bool.eq_false_iff.mpr hp

/-- The head of `specialCharsSub` on an alnum-headed list is that character;
used to see that no two underscores are adjacent in the output. -/
theorem specialCharsSub_head_not_und (l : List Char)
    (hhead : ∀ c, l.head? = some c → isAlnumLower c = true) :
    ∀ c, (specialCharsSub l).head? = some c → c ≠ '_' := by
  intro c hc
  cases l with
  | nil => rw [specialCharsSub.eq_def] at hc; exact absurd hc (by simp)
  | cons a tl =>
    have ha : isAlnumLower a = true := hhead a rfl
    rw [specialCharsSub.eq_def] at hc
    simp only [] at hc
    rw [if_pos ha] at hc
    have : a = c := by simpa using hc
    intro hu
    rw [← this] at hu
    rw [hu] at ha
    exact absurd ha (by decide)

/-- No two adjacent underscores in the output of `specialCharsSub`. -/
theorem specialCharsSub_chain (l : List Char) :
    List.Chain' (fun a b => ¬(a = '_' ∧ b = '_')) (specialCharsSub l) := by
  induction l using specialCharsSub.induct with
  | case1 => rw [specialCharsSub.eq_def]; exact List.chain'_nil
  | case2 c tl halnum ih =>
    rw [specialCharsSub.eq_def]
    simp only []
    rw [if_pos halnum]
    refine List.chain'_cons'.mpr ⟨?_, ih⟩
    intro y _ hand
    rw [hand.1] at halnum
    exact absurd halnum (by decide)
  | case3 c tl halnum ih =>
    rw [specialCharsSub.eq_def]
    simp only []
    rw [if_neg halnum]
    refine List.chain'_cons'.mpr ⟨?_, ih⟩
    intro y hy hand
    have hhead : ∀ d, (tl.dropWhile (fun d => !isAlnumLower d)).head? = some d →
        isAlnumLower d = true := by
      intro d hd
      have := head?_dropWhile_not _ _ _ hd
      simpa using this
    exact specialCharsSub_head_not_und _ hhead y hy hand.2

/-- Membership in `stripUnderscores` output implies membership in the input. -/
theorem stripUnderscores_subset (l : List Char) (c : Char)
    (h : c ∈ stripUnderscores l) : c ∈ l := by
  unfold stripUnderscores at h
  rw [List.mem_reverse] at h
  have h2 := (List.dropWhile_sublist (fun d => d = '_')).subset h
  rw [List.mem_reverse] at h2
  exact (List.dropWhile_sublist (fun d => d = '_')).subset h2

/-- The no-adjacent-underscores chain survives `stripUnderscores`. -/
theorem stripUnderscores_chain (l : List Char)
    (h : List.Chain' (fun a b => ¬(a = '_' ∧ b = '_')) l) :
    List.Chain' (fun a b => ¬(a = '_' ∧ b = '_')) (stripUnderscores l) := by
  unfold stripUnderscores
  have hsymm : ∀ m : List Char, List.Chain' (fun a b => ¬(a = '_' ∧ b = '_')) m →
      List.Chain' (fun a b => ¬(a = '_' ∧ b = '_')) m.reverse := by
    intro m hm
    rw [List.chain'_reverse]
    have : (flip (fun a b : Char => ¬(a = '_' ∧ b = '_'))) =
        (fun a b : Char => ¬(a = '_' ∧ b = '_')) := by
      funext a b
      unfold flip
      apply propext
      constructor
      · intro hx hand; exact hx ⟨hand.2, hand.1⟩
      · intro hx hand; exact hx ⟨hand.2, hand.1⟩
    rw [this]
    exact hm
  apply hsymm
  refine List.Chain'.suffix ?_ (List.dropWhile_suffix _)
  apply hsymm
  exact List.Chain'.suffix h (List.dropWhile_suffix _)

/-- `head?` of an append with a nonempty left part. -/
theorem head?_append_left {α : Type} (l t : List α) (h : l ≠ []) :
    (l ++ t).head? = l.head? := by
  cases l with
  | nil => exact absurd rfl h
  | cons a tl => rfl

/-- The head of the stripped list is not an underscore. -/
theorem stripUnderscores_head (l : List Char) (c : Char)
    (h : (stripUnderscores l).head? = some c) : c ≠ '_' := by
  unfold stripUnderscores at h
  rw [List.head?_reverse] at h
  -- c is the last element of the second dropWhile; that list is a suffix of
  -- the reversed first dropWhile, whose last element is the head of the
  -- first dropWhile, which falsifies the underscore predicate.
  set A := l.dropWhile (fun d => d = '_') with hA
  set B := A.reverse.dropWhile (fun d => d = '_') with hB
  have hBsuff : B <:+ A.reverse := List.dropWhile_suffix _
  obtain ⟨pre, hpre⟩ := hBsuff
  have hBne : B ≠ [] := by
    intro hnil
    rw [hnil] at h
    exact absurd h (by simp)
  have hlast : B.getLast? = A.reverse.getLast? := by
    rw [← hpre, List.getLast?_append]
    cases hBl : B.getLast? with
    | none => exact absurd (List.getLast?_eq_none_iff.mp hBl) hBne
    | some x => rfl
  rw [hlast, List.getLast?_reverse] at h
  have := head?_dropWhile_not (fun d => d = '_') l c h
  simpa using this

/-- The last element of the stripped list is not an underscore. -/
theorem stripUnderscores_last (l : List Char) (c : Char)
    (h : (stripUnderscores l).getLast? = some c) : c ≠ '_' := by
  unfold stripUnderscores at h
  rw [List.getLast?_reverse] at h
  have := head?_dropWhile_not (fun d => d = '_') _ c h
  simpa using this

/-- `specialCharsSub` is the identity on lists of lowercase alphanumerics and
underscores with no two adjacent underscores. -/
theorem specialCharsSub_id (l : List Char)
    (ha : ∀ c ∈ l, isAlnumLower c = true ∨ c = '_')
    (hchain : List.Chain' (fun a b => ¬(a = '_' ∧ b = '_')) l) :
    specialCharsSub l = l := by
  induction l using specialCharsSub.induct with
  | case1 => rw [specialCharsSub.eq_def]
  | case2 c tl halnum ih =>
    rw [specialCharsSub.eq_def]
    simp only []
    rw [if_pos halnum]
    have htl : ∀ d ∈ tl, isAlnumLower d = true ∨ d = '_' := by
      intro d hd; exact ha d (List.mem_cons_of_mem _ hd)
    rw [ih htl (List.Chain'.tail hchain)]
  | case3 c tl halnum ih =>
    have hcu : c = '_' := by
      rcases ha c (List.mem_cons_self _ _) with h1 | h1
      · exact absurd h1 (by simpa using halnum)
      · exact h1
    have hdrop : tl.dropWhile (fun d => !isAlnumLower d) = tl := by
      cases tl with
      | nil => rfl
      | cons d tl2 =>
        have hd : isAlnumLower d = true := by
          rcases ha d (List.mem_cons_of_mem _ (List.mem_cons_self _ _)) with h1 | h1
          · exact h1
          · exfalso
            have := List.chain'_cons.mp hchain
            exact this.1 ⟨hcu, h1⟩
        rw [List.dropWhile_cons, if_neg (by simp [hd])]
    rw [specialCharsSub.eq_def]
    simp only []
    rw [if_neg halnum, hcu, hdrop]
    have htl : ∀ d ∈ tl, isAlnumLower d = true ∨ d = '_' := by
      intro d hd; exact ha d (List.mem_cons_of_mem _ hd)
    rw [hdrop] at ih
    rw [ih htl (List.Chain'.tail hchain)]

/-- `dropWhile` is the identity when the head falsifies the predicate. -/
theorem dropWhile_id_of_head {α : Type} (p : α → Bool) (l : List α)
    (h : ∀ c, l.head? = some c → p c = false) : l.dropWhile p = l := by
  cases l with
  | nil => rfl
  | cons a tl => rw [List.dropWhile_cons, if_neg (by simp [h a rfl])]

/-- `stripUnderscores` is the identity when neither end is an underscore. -/
theorem stripUnderscores_id (l : List Char)
    (hhead : ∀ c, l.head? = some c → c ≠ '_')
    (hlast : ∀ c, l.getLast? = some c → c ≠ '_') :
    stripUnderscores l = l := by
  unfold stripUnderscores
  rw [dropWhile_id_of_head _ l (by
    intro c hc
    have := hhead c hc
    simpa using this)]
  rw [dropWhile_id_of_head _ l.reverse (by
    intro c hc
    rw [List.head?_reverse] at hc
    have := hlast c hc
    simpa using this)]
  exact List.reverse_reverse l

/-- `collapseUnderscores` is the identity when no two underscores are
adjacent. -/
theorem collapseUnderscores_id (l : List Char)
    (hchain : List.Chain' (fun a b => ¬(a = '_' ∧ b = '_')) l) :
    collapseUnderscores l = l := by
  induction l using collapseUnderscores.induct with
  | case1 => rw [collapseUnderscores.eq_def]
  | case2 tl ih =>
    have hdrop : tl.dropWhile (· = '_') = tl := by
      cases tl with
      | nil => rfl
      | cons d tl2 =>
        have hd : d ≠ '_' := by
          intro hdu
          exact (List.chain'_cons.mp hchain).1 ⟨rfl, hdu⟩
        rw [List.dropWhile_cons, if_neg (by simp [hd])]
    rw [collapseUnderscores.eq_def]
    simp only []
    rw [if_pos trivial, hdrop]
    rw [hdrop] at ih
    rw [ih (List.Chain'.tail hchain)]
  | case3 c tl hund ih =>
    rw [collapseUnderscores.eq_def]
    simp only []
    rw [if_neg hund]
    rw [ih (List.Chain'.tail hchain)]

/-- Let-free restatement of `normalize_column_name`. -/
theorem normalize_column_name_def (s : String) :
    normalize_column_name s =
      match collapseUnderscores (stripUnderscores (specialCharsSub
          ((camelLowerUpperSub (camelBoundarySub s.data)).map pyLower))) with
      | [] => "unnamed"
      | c :: rest =>
        if isDigit09 c then String.mk ('_' :: c :: rest)
        else String.mk (c :: rest) := rfl

/-- The fallback name is a fixed point of the normalizer. -/
theorem normalize_unnamed : normalize_column_name "unnamed" = "unnamed" := by
  have h := normalize_column_name_def "unnamed"
  rw [camelBoundarySub_id ("unnamed".data) (by decide),
      camelLowerUpperSub_id ("unnamed".data) (by decide),
      map_pyLower_id ("unnamed".data) (by decide),
      specialCharsSub_id ("unnamed".data) (by decide) (by simp),
      show stripUnderscores ("unnamed".data) = "unnamed".data from rfl,
      collapseUnderscores_id ("unnamed".data) (by simp)] at h
  exact h

/-- A canonical list (lowercase alphanumerics and isolated underscores, no
underscore at either end) headed by a non-digit is a fixed point of the
normalizer. -/
theorem normalize_canonical_plain (c : Char) (rest : List Char)
    (ha : ∀ x ∈ c :: rest, isAlnumLower x = true ∨ x = '_')
    (hchain : List.Chain' (fun a b => ¬(a = '_' ∧ b = '_')) (c :: rest))
    (hhead : c ≠ '_')
    (hlast : ∀ x, (c :: rest).getLast? = some x → x ≠ '_')
    (hdig : isDigit09 c = false) :
    normalize_column_name (String.mk (c :: rest)) = String.mk (c :: rest) := by
  have hnoup : ∀ x ∈ c :: rest, isUpperAZ x = false := by
    intro x hx
    rcases ha x hx with h1 | h1
    · exact not_upper_of_alnumLower x h1
    · rw [h1]; exact und_not_upper
  have h := normalize_column_name_def (String.mk (c :: rest))
  have hdata : (String.mk (c :: rest)).data = c :: rest := rfl
  rw [hdata, camelBoundarySub_id _ hnoup, camelLowerUpperSub_id _ hnoup,
      map_pyLower_id _ hnoup, specialCharsSub_id _ ha hchain,
      stripUnderscores_id _ (by
        intro x hx
        have hxc : c = x := by simpa using hx
        rw [← hxc]; exact hhead) hlast,
      collapseUnderscores_id _ hchain] at h
  have h2 : normalize_column_name (String.mk (c :: rest)) =
      if isDigit09 c then String.mk ('_' :: c :: rest)
      else String.mk (c :: rest) := h
  rw [h2, if_neg (by simp [hdig])]

/-- A canonical list headed by a digit, prefixed with an underscore, is a
fixed point of the normalizer. -/
theorem normalize_canonical_digit (c : Char) (rest : List Char)
    (ha : ∀ x ∈ c :: rest, isAlnumLower x = true ∨ x = '_')
    (hchain : List.Chain' (fun a b => ¬(a = '_' ∧ b = '_')) (c :: rest))
    (hlast : ∀ x, (c :: rest).getLast? = some x → x ≠ '_')
    (hdig : isDigit09 c = true) :
    normalize_column_name (String.mk ('_' :: c :: rest)) =
      String.mk ('_' :: c :: rest) := by
  have hcal : isAlnumLower c = true := by simp [isAlnumLower, hdig]
  have hcu : c ≠ '_' := by
    intro hc
    rw [hc] at hdig
    exact absurd hdig (by decide)
  have hnoup : ∀ x ∈ '_' :: c :: rest, isUpperAZ x = false := by
    intro x hx
    rcases List.mem_cons.mp hx with h1 | h1
    · rw [h1]; exact und_not_upper
    · rcases ha x h1 with h2 | h2
      · exact not_upper_of_alnumLower x h2
      · rw [h2]; exact und_not_upper
  have h := normalize_column_name_def (String.mk ('_' :: c :: rest))
  have hdata : (String.mk ('_' :: c :: rest)).data = '_' :: c :: rest := rfl
  rw [hdata, camelBoundarySub_id _ hnoup, camelLowerUpperSub_id _ hnoup,
      map_pyLower_id _ hnoup] at h
  have hscs : specialCharsSub ('_' :: c :: rest) = '_' :: c :: rest := by
    rw [specialCharsSub.eq_def]
    simp only []
    rw [if_neg (by decide), List.dropWhile_cons, if_neg (by simp [hcal]),
        specialCharsSub_id _ ha hchain]
  rw [hscs] at h
  have hstrip : stripUnderscores ('_' :: c :: rest) = c :: rest := by
    unfold stripUnderscores
    rw [List.dropWhile_cons, if_pos (by simp),
        dropWhile_id_of_head _ (c :: rest) (by
          intro x hx
          have hxc : c = x := by simpa using hx
          rw [← hxc]
          simp [hcu]),
        dropWhile_id_of_head _ (c :: rest).reverse (by
          intro x hx
          rw [List.head?_reverse] at hx
          have := hlast x hx
          simp [this]),
        List.reverse_reverse]
  rw [hstrip, collapseUnderscores_id _ hchain] at h
  have h2 : normalize_column_name (String.mk ('_' :: c :: rest)) =
      if isDigit09 c then String.mk ('_' :: c :: rest)
      else String.mk (c :: rest) := h
  rw [h2, if_pos hdig]

/-- C10: `normalize_column_name` is idempotent — applying the normalizer to
its own output returns that output unchanged, including the edge cases where
the result is "unnamed" (empty after stripping) or is underscore-prefixed
because it starts with a digit. -/
theorem normalize_column_name_idempotent (s : String) :
    normalize_column_name (normalize_column_name s) = normalize_column_name s := by
  have hchainS := specialCharsSub_chain
    ((camelLowerUpperSub (camelBoundarySub s.data)).map pyLower)
  have hchainM := stripUnderscores_chain _ hchainS
  have hEq := normalize_column_name_def s
  rw [collapseUnderscores_id _ hchainM] at hEq
  cases hM : stripUnderscores (specialCharsSub
      ((camelLowerUpperSub (camelBoundarySub s.data)).map pyLower)) with
  | nil =>
    rw [hM] at hEq
    have hEs : normalize_column_name s = "unnamed" := hEq
    rw [hEs]
    exact normalize_unnamed
  | cons c rest =>
    rw [hM] at hEq
    have haM : ∀ x ∈ c :: rest, isAlnumLower x = true ∨ x = '_' := by
      intro x hx
      rw [← hM] at hx
      exact specialCharsSub_chars _ x (stripUnderscores_subset _ x hx)
    have hchain2 : List.Chain' (fun a b => ¬(a = '_' ∧ b = '_')) (c :: rest) := by
      rw [← hM]; exact hchainM
    have hlast2 : ∀ x, (c :: rest).getLast? = some x → x ≠ '_' := by
      intro x hx
      refine stripUnderscores_last (specialCharsSub
        ((camelLowerUpperSub (camelBoundarySub s.data)).map pyLower)) x ?_
      rw [hM]; exact hx
    have hhead2 : c ≠ '_' := by
      refine stripUnderscores_head (specialCharsSub
        ((camelLowerUpperSub (camelBoundarySub s.data)).map pyLower)) c ?_
      rw [hM]; rfl
    have hEs : normalize_column_name s =
        if isDigit09 c then String.mk ('_' :: c :: rest)
        else String.mk (c :: rest) := hEq
    by_cases hdig : isDigit09 c = true
    · rw [hEs, if_pos hdig]
      exact normalize_canonical_digit c rest haM hchain2 hlast2 hdig
    · rw [hEs, if_neg hdig]
      exact normalize_canonical_plain c rest haM hchain2 hhead2 hlast2
        (Bool.eq_false_iff.mpr hdig)

/-- The lines of the unrecoverable reports collected by the JSONL repair loop
are exactly the 1-based numbers of the non-blank lines that parse neither
originally nor after the repair heuristics. -/
theorem repairJsonlGo_lines (jparse : String → Except JsonErr Unit)
    (content : List String) : ∀ i,
    ((repairJsonlGo jparse i content).snd.snd).map
        (fun e => UnrecoverableLine.line e) =
      failedLineNumbersGo jparse i content := by
  induction content with
  | nil => intro i; rfl
  | cons l rest ih =>
    intro i
    simp only [repairJsonlGo, failedLineNumbersGo]
    by_cases hs : pyStrip l = ""
    · rw [if_pos hs]
      have hcond : ¬(pyStrip l ≠ "" ∧ lineRecoverable jparse l = false) :=
        fun h => h.1 hs
      rw [if_neg hcond]
      simpa using ih (i + 1)
    · rw [if_neg hs]
      cases hjp : jparse (pyStrip l) with
      | ok v =>
        have hrec : lineRecoverable jparse l = true := by
          unfold lineRecoverable; rw [hjp]
        have hcond : ¬(pyStrip l ≠ "" ∧ lineRecoverable jparse l = false) := by
          intro h
          rw [hrec] at h
          exact absurd h.2 (by simp)
        rw [if_neg hcond]
        simp only [hjp]
        simpa using ih (i + 1)
      | error e1 =>
        cases hjp2 : jparse (repairJsonString (pyStrip l)) with
        | ok v =>
          have hrec : lineRecoverable jparse l = true := by
            unfold lineRecoverable; rw [hjp, hjp2]
          have hcond : ¬(pyStrip l ≠ "" ∧ lineRecoverable jparse l = false) := by
            intro h
            rw [hrec] at h
            exact absurd h.2 (by simp)
          rw [if_neg hcond]
          simp only [hjp, hjp2]
          simpa using ih (i + 1)
        | error e2 =>
          have hrec : lineRecoverable jparse l = false := by
            unfold lineRecoverable; rw [hjp, hjp2]
          rw [if_pos ⟨hs, hrec⟩]
          simp only [hjp, hjp2, List.map_cons]
          rw [ih (i + 1)]
          simp

/-- The failed-line list is empty exactly when every non-blank line is
recoverable. -/
theorem failedLineNumbersGo_eq_nil (jparse : String → Except JsonErr Unit)
    (content : List String) : ∀ i,
    (failedLineNumbersGo jparse i content = [] ↔
      ∀ l ∈ content, pyStrip l = "" ∨ lineRecoverable jparse l = true) := by
  induction content with
  | nil => intro i; simp [failedLineNumbersGo]
  | cons l rest ih =>
    intro i
    unfold failedLineNumbersGo
    by_cases hcond : (pyStrip l ≠ "" ∧ lineRecoverable jparse l = false)
    · rw [if_pos hcond]
      constructor
      · intro h
        exact absurd h (by simp)
      · intro h
        exfalso
        rcases h l (List.mem_cons_self _ _) with h1 | h1
        · exact hcond.1 h1
        · rw [h1] at hcond
          exact absurd hcond.2 (by simp)
    · rw [if_neg hcond]
      simp only [List.nil_append]
      rw [ih (i + 1)]
      constructor
      · intro h x hx
        rcases List.mem_cons.mp hx with h1 | h1
        · rw [h1]
          by_cases hs : pyStrip l = ""
          · exact Or.inl hs
          · right
            by_cases hr : lineRecoverable jparse l = true
            · exact hr
            · exact absurd ⟨hs, Bool.eq_false_iff.mpr hr⟩ hcond
        · exact h x h1
      · intro h x hx
        exact h x (List.mem_cons_of_mem _ hx)

/-- If some non-blank line is unrecoverable, the validation pass reports at
least one error. -/
theorem validateJsonlGo_ne_nil (jparse : String → Except JsonErr Unit)
    (content : List String) : ∀ i,
    (∃ l ∈ content, pyStrip l ≠ "" ∧ lineRecoverable jparse l = false) →
    validateJsonlGo jparse i content ≠ [] := by
  induction content with
  | nil =>
    intro i h
    rcases h with ⟨l, hl, _⟩
    cases hl
  | cons l rest ih =>
    intro i h
    simp only [validateJsonlGo]
    by_cases hs : pyStrip l = ""
    · rw [if_pos hs]
      apply ih (i + 1)
      rcases h with ⟨x, hx, hx2⟩
      rcases List.mem_cons.mp hx with h1 | h1
      · exfalso
        rw [h1] at hx2
        exact hx2.1 hs
      · exact ⟨x, h1, hx2⟩
    · rw [if_neg hs]
      cases hjp : jparse (pyStrip l) with
      | ok v =>
        simp only [hjp]
        apply ih (i + 1)
        rcases h with ⟨x, hx, hx2⟩
        rcases List.mem_cons.mp hx with h1 | h1
        · exfalso
          have hrec : lineRecoverable jparse l = true := by
            unfold lineRecoverable; rw [hjp]
          rw [h1, hrec] at hx2
          exact absurd hx2.2 (by simp)
        · exact ⟨x, h1, hx2⟩
      | error e =>
        simp only [hjp]
        by_cases h19 : 19 ≤ (validateJsonlGo jparse (i + 1) rest).length
        · rw [if_pos h19]; simp
        · rw [if_neg h19]; simp

/-- C7: JSONL repair is all-or-nothing — the repair succeeds exactly when
every non-blank line parses as JSON, either originally or after the repair
heuristics; and whenever it fails, the reported unrecoverable-line list is
nonempty, its line numbers are exactly the failing line numbers, and the
robust JSON load returns that error instead of loading partial data. -/
theorem jsonl_repair_all_or_nothing (jparse : String → Except JsonErr Unit)
    (content : List String) :
    (exceptIsOk (repairJsonl jparse content) = true ↔
      ∀ l ∈ content, pyStrip l = "" ∨ lineRecoverable jparse l = true) ∧
    (∀ u, repairJsonl jparse content = Except.error u →
      u ≠ [] ∧
      u.map (fun e => UnrecoverableLine.line e) =
        failedLineNumbers jparse content ∧
      loadJsonRobust jparse content = Except.error u) := by
  have hlines := repairJsonlGo_lines jparse content 1
  have hiff : (repairJsonlGo jparse 1 content).snd.snd = [] ↔
      ∀ l ∈ content, pyStrip l = "" ∨ lineRecoverable jparse l = true := by
    constructor
    · intro h
      refine (failedLineNumbersGo_eq_nil jparse content 1).mp ?_
      rw [← hlines, h]
      rfl
    · intro h
      have h2 : failedLineNumbersGo jparse 1 content = [] :=
        (failedLineNumbersGo_eq_nil jparse content 1).mpr h
      rw [h2] at hlines
      exact List.map_eq_nil_iff.mp hlines
  constructor
  · constructor
    · intro h
      by_cases hemp : (repairJsonlGo jparse 1 content).snd.snd = []
      · exact hiff.mp hemp
      · exfalso
        have herr : repairJsonl jparse content =
            Except.error (repairJsonlGo jparse 1 content).snd.snd := by
          unfold repairJsonl
          rw [if_neg (by simpa [List.isEmpty_iff] using hemp)]
        rw [herr] at h
        exact absurd h (by simp [exceptIsOk])
    · intro h
      have hemp : (repairJsonlGo jparse 1 content).snd.snd = [] := hiff.mpr h
      have hok : repairJsonl jparse content = Except.ok
          ((repairJsonlGo jparse 1 content).fst,
            (repairJsonlGo jparse 1 content).snd.fst) := by
        unfold repairJsonl
        rw [if_pos (by simp [hemp])]
      rw [hok]
      rfl
  · intro u hu
    have hne : ¬ (repairJsonlGo jparse 1 content).snd.snd.isEmpty = true := by
      intro hemp
      unfold repairJsonl at hu
      rw [if_pos hemp] at hu
      exact Except.noConfusion hu
    have hu2 : u = (repairJsonlGo jparse 1 content).snd.snd := by
      unfold repairJsonl at hu
      rw [if_neg hne] at hu
      injection hu with h1
      exact h1.symm
    refine ⟨?_, ?_, ?_⟩
    · rw [hu2]
      intro hnil
      exact hne (by simp [hnil])
    · rw [hu2]
      exact hlines
    · unfold loadJsonRobust
      have hex : ∃ l ∈ content, pyStrip l ≠ "" ∧ lineRecoverable jparse l = false := by
      -- the failing repair forces some unrecoverable line
        have hfne : ¬ ∀ l ∈ content, pyStrip l = "" ∨ lineRecoverable jparse l = true := by
          intro hall
          exact hne (by simp [hiff.mpr hall])
        push_neg at hfne
        rcases hfne with ⟨l, hl, h1, h2⟩
        exact ⟨l, hl, h1, Bool.eq_false_iff.mpr h2⟩
      have hval : ¬ (validateJsonl jparse content).isEmpty = true := by
        intro hvemp
        exact validateJsonlGo_ne_nil jparse content 1 hex
          (by simpa [List.isEmpty_iff, validateJsonl] using hvemp)
      rw [if_neg hval, hu]

/-- Witness for C7: on a two-line file whose second line is unrecoverable,
the repair fails with exactly that line reported and the robust load returns
the error. -/
theorem jsonl_repair_all_or_nothing_witness :
    ([({ line := 2, column := 1, message := "Expecting value",
         content_preview := strNotJson } : UnrecoverableLine)] ≠ []) ∧
    [({ line := 2, column := 1, message := "Expecting value",
        content_preview := strNotJson } : UnrecoverableLine)].map
        (fun e => UnrecoverableLine.line e) =
      failedLineNumbers toyJsonParse [strOne, strNotJson] ∧
    loadJsonRobust toyJsonParse [strOne, strNotJson] =
      Except.error [{ line := 2, column := 1, message := "Expecting value",
                      content_preview := strNotJson }] :=
  (jsonl_repair_all_or_nothing toyJsonParse [strOne, strNotJson]).2
    [{ line := 2, column := 1, message := "Expecting value",
       content_preview := strNotJson }] (by rfl)
